import Mathlib

/-!
# Verification of the Cocos prefab migration engine

A shallow embedding of the repository's two source files
(`src/parserv3.js` and the unnamed migration driver) and proofs about it.

JavaScript values are embedded as the inductive type `JVal`; `null` and
`undefined` are identified as `JVal.null` (a field holding `undefined` is
modelled as an absent field, which matches every observation the code makes
through `!== undefined` guards on JSON-derived data).  JavaScript objects are
association lists in insertion order; property assignment keeps the position
of an existing key and appends a fresh key, exactly as in JavaScript.
Numbers are embedded as `Int`: every number the migration code manipulates is
an integer slot index or an integer field value.
-/

set_option maxHeartbeats 1600000

/-- Embedded JavaScript/JSON value.  `null` stands for both `null` and
`undefined` (tombstones in the flat record array). -/
inductive JVal where
  | null
  | bool (b : Bool)
  | num (n : Int)
  | str (s : String)
  | arr (elems : List JVal)
  | obj (fields : List (String × JVal))

namespace JVal

mutual

/-- Structural (deep) equality test on embedded values. -/
def beq : JVal → JVal → Bool
  | .null, .null => true
  | .bool a, .bool b => a == b
  | .num a, .num b => a == b
  | .str a, .str b => a == b
  | .arr xs, .arr ys => beqList xs ys
  | .obj fs, .obj gs => beqFields fs gs
  | _, _ => false

/-- Elementwise equality of embedded arrays. -/
def beqList : List JVal → List JVal → Bool
  | [], [] => true
  | x :: xs, y :: ys => beq x y && beqList xs ys
  | _, _ => false

/-- Entrywise equality of embedded objects. -/
def beqFields : List (String × JVal) → List (String × JVal) → Bool
  | [], [] => true
  | (k, v) :: fs, (k', v') :: gs => k == k' && beq v v' && beqFields fs gs
  | _, _ => false

end

mutual

theorem beq_iff : ∀ a b : JVal, beq a b = true ↔ a = b
  | .null, b => by cases b <;> simp [beq]
  | .bool x, b => by cases b <;> simp [beq]
  | .num x, b => by cases b <;> simp [beq]
  | .str x, b => by cases b <;> simp [beq]
  | .arr xs, b => by
    cases b <;> simp [beq]
    exact beqList_iff xs _
  | .obj fs, b => by
    cases b <;> simp [beq]
    exact beqFields_iff fs _

theorem beqList_iff : ∀ xs ys : List JVal, beqList xs ys = true ↔ xs = ys
  | [], ys => by cases ys <;> simp [beqList]
  | x :: xs, ys => by
    cases ys with
    | nil => simp [beqList]
    | cons y ys => simp [beqList, beq_iff x y, beqList_iff xs ys]

theorem beqFields_iff : ∀ fs gs : List (String × JVal), beqFields fs gs = true ↔ fs = gs
  | [], gs => by cases gs <;> simp [beqFields]
  | (k, v) :: fs, gs => by
    cases gs with
    | nil => simp [beqFields]
    | cons g gs =>
      obtain ⟨k', v'⟩ := g
      simp [beqFields, beq_iff v v', beqFields_iff fs gs, and_assoc]

end

instance : DecidableEq JVal := fun a b => decidable_of_iff (beq a b = true) (beq_iff a b)

/-- JavaScript truthiness of an embedded value.  `NaN` does not occur in the
embedded fragment, so a number is falsy exactly when it is `0`. -/
def truthy : JVal → Bool
  | .null => false
  | .bool b => b
  | .num n => n != 0
  | .str s => s ≠ ""
  | .arr _ => true
  | .obj _ => true

/-- Is the value an array (`Array.isArray`)? -/
def isArr : JVal → Bool
  | .arr _ => true
  | _ => false

end JVal

/-- First binding of a key in an association list (JavaScript objects have
unique keys, so the first binding is the only one on well-formed data). -/
def assocFind {β : Type} : List (String × β) → String → Option β
  | [], _ => none
  | (k', v) :: rest, k => if k' = k then some v else assocFind rest k

/-- JavaScript property assignment `o[k] = v` on an association list:
an existing key keeps its position and gets the new value, a fresh key is
appended at the end (JS insertion-order semantics). -/
def assocSet {β : Type} : List (String × β) → String → β → List (String × β)
  | [], k, v => [(k, v)]
  | (k', v') :: rest, k, v =>
    if k' = k then (k', v) :: rest else (k', v') :: assocSet rest k v

/-- Property read `o[k]` (returns `none` for `undefined`, also on non-objects,
matching `(5).foo === undefined`). -/
def getField : JVal → String → Option JVal
  | .obj fs, k => assocFind fs k
  | _, _ => none

/-- Truthiness of a possibly-`undefined` read. -/
def truthyO : Option JVal → Bool
  | some v => v.truthy
  | none => false

/-- Array indexing `data[i]` with a JavaScript number as index: defined for an
in-range integer index, `undefined` (`none`) otherwise. -/
def listIdx (data : List JVal) (i : Int) : Option JVal :=
  if h : 0 ≤ i ∧ i.toNat < data.length then some (data.get ⟨i.toNat, h.2⟩) else none

/-- Array element write `data[i] = v`; out-of-range writes do not occur in the
embedded code (every write is guarded by a successful read at the same index),
so they are modelled as no-ops. -/
def listSet (data : List JVal) (i : Int) (v : JVal) : List JVal :=
  if 0 ≤ i ∧ i.toNat < data.length then data.set i.toNat v else data

/-- Indexing by an embedded value, as in `prefabData[compRef.__id__]` where
the id may be any value: only an in-range integer resolves, everything else
reads `undefined`. -/
def jvalIdx (data : List JVal) : JVal → Option JVal
  | .num n => listIdx data n
  | _ => none

/-! ## Reference codec (`src/parserv3.js`, `encodeUuid` / `decodeUuid`)

The codec packs hexadecimal digits into a 64-symbol alphabet.  `parseInt(c,16)`
of a non-hex character is `NaN`, and JavaScript bitwise operators coerce `NaN`
to `0`; `hexValBits` builds that coercion in.  `BASE64_VALUES` maps any
character outside the alphabet to the placeholder index 64. -/

def BASE64_KEYS : String :=
  "ABCDEFGHIJKLMNOPQRSTUVWXYZabcdefghijklmnopqrstuvwxyz0123456789+/="

/-- `BASE64_VALUES[c.charCodeAt]`: index of `c` among the first 64 alphabet
symbols, 64 (the `=` placeholder) for anything else. -/
def base64Val (c : Char) : Nat :=
  match (BASE64_KEYS.toList.take 64).indexOf? c with
  | some i => i
  | none => 64

/-- `BASE64_KEYS[n]` (every index used by the code is at most 64). -/
def base64Key (n : Nat) : Char :=
  BASE64_KEYS.toList.getD n '='

/-- `parseInt(c, 16)` as consumed by the bitwise packing expressions
(`NaN` coerces to 0 there). -/
def hexValBits (c : Char) : Nat :=
  if '0' ≤ c ∧ c ≤ '9' then c.toNat - '0'.toNat
  else if 'a' ≤ c ∧ c ≤ 'f' then c.toNat - 'a'.toNat + 10
  else if 'A' ≤ c ∧ c ≤ 'F' then c.toNat - 'A'.toNat + 10
  else 0

/-- The packing loop of `encodeUuid`: `for (i = reserved; i < 32; i += 3)`,
emitting two alphabet symbols per three hex digits.  Reading past the end of
`hex` models JavaScript's `undefined`/`NaN`, which the bitwise ops turn
into 0. -/
def encodePackFrom (hex : List Char) (i : Nat) : List Char :=
  (List.range' i ((32 - i + 2) / 3) 3).foldr
    (fun j acc =>
      let h1 := hexValBits (hex.getD j '*')
      let h2 := hexValBits (hex.getD (j + 1) '*')
      let h3 := hexValBits (hex.getD (j + 2) '*')
      base64Key ((h1 <<< 2) ||| (h2 >>> 2)) ::
        base64Key (((h2 &&& 3) <<< 4) ||| h3) :: acc)
    []

/-- `encodeUuid(uuid, min)`: long (36-character) UUID to short form; anything
that is not a 36-character string is returned unchanged. -/
def encodeUuid (uuid : String) (min : Bool) : String :=
  if uuid.length ≠ 36 then uuid
  else
    let hex : List Char := (uuid.toList.filter (fun c => c ≠ '-')).map Char.toLower
    let reserved : Nat := if min then 2 else 5
    String.mk (hex.take reserved ++ encodePackFrom hex reserved)

/-- The unpacking loop of `decodeUuid`: two symbols back to three hex digits;
each recovered value is rendered with `toString(16)` (`Nat.toDigits 16`,
which also reproduces the two-character rendering of values above 15 that
JavaScript produces for out-of-alphabet input). -/
def decodeUnpackFrom (cs : List Char) (i stop : Nat) : List Char :=
  (List.range' i ((stop - i + 1) / 2) 2).foldr
    (fun j acc =>
      let n := base64Val (cs.getD j '*')
      let s := base64Val (cs.getD (j + 1) '*')
      (Nat.toDigits 16 (n >>> 2) ++ Nat.toDigits 16 ((((n &&& 3) <<< 2)) ||| (s >>> 4)) ++
        Nat.toDigits 16 (s &&& 15)) ++ acc)
    []

/-- Reassembly `[slice(0,8), slice(8,12), slice(12,16), slice(16,20),
slice(20)].join("-")`. -/
def uuidHyphenate (cs : List Char) : String :=
  String.mk (cs.take 8 ++ '-' :: ((cs.drop 8).take 4) ++ '-' :: ((cs.drop 12).take 4) ++
    '-' :: ((cs.drop 16).take 4) ++ '-' :: cs.drop 20)

/-- `decodeUuid(e)`: short (22- or 23-character) UUID to hyphenated long form;
any other length is returned unchanged. -/
def decodeUuid (e : String) : String :=
  let cs := e.toList
  if cs.length = 23 then
    uuidHyphenate (cs.take 5 ++ decodeUnpackFrom cs 5 23)
  else if cs.length ≠ 22 then e
  else
    uuidHyphenate (cs.take 2 ++ decodeUnpackFrom cs 2 22)

/-- `isShortUUID`. -/
def isShortUUID (uuid : String) : Bool := uuid.length == 22

/-- `isLongUUID`. -/
def isLongUUID (uuid : String) : Bool := uuid.length == 36 && uuid.toList.contains '-'

/-- `normalizeToShort`. -/
def normalizeToShort (uuid : String) : String :=
  if isShortUUID uuid then uuid
  else if isLongUUID uuid then encodeUuid uuid false
  else uuid

/-- `normalizeToLong`. -/
def normalizeToLong (uuid : String) : String :=
  if isLongUUID uuid then uuid
  else if isShortUUID uuid then decodeUuid uuid
  else uuid

/-! ## Tree projector (`src/parserv3.js`, class `CocosPrefabParser`)

The parser walks the flat record array from a discovered root node and builds
a hierarchical view.  JavaScript recursion has no termination guarantee — a
cyclic `_children` chain overflows the call stack (a `RangeError`, caught by
`parsePrefab`); the embedding uses a fuel of `data.length + 1`, which is
enough for every acyclic graph (a descent path longer than the array must
revisit a slot), and reports exhaustion as the distinguished
`ParseErr.stackOverflow`. -/

/-- JavaScript string coercion (object-key coercion in `children[childName]`
and template literals).  Embedded data only ever coerces strings and integer
numbers. -/
def jsToString : JVal → String
  | .str s => s
  | .num n => toString n
  | .bool b => if b then "true" else "false"
  | .null => "null"
  | .arr _ => ""
  | .obj _ => "[object Object]"

/-- JavaScript `a || b` on a possibly-`undefined` read. -/
def jsOr (o : Option JVal) (d : JVal) : JVal :=
  match o with
  | some x => if x.truthy then x else d
  | none => d

/-- Property write `v[k] = x`.  Property assignment on a primitive is silently
ignored in sloppy mode; every write the code performs targets an object. -/
def setFieldJS (v : JVal) (k : String) (x : JVal) : JVal :=
  match v with
  | .obj fs => .obj (assocSet fs k x)
  | other => other

/-- `String.prototype.replace` with a *string* pattern replaces only the
first occurrence (used as `__type__.replace('cc.', '')`). -/
def jsReplaceOnceAux (pat repl : List Char) : List Char → List Char
  | [] => []
  | c :: rest =>
    if List.isPrefixOf pat (c :: rest) then repl ++ List.drop (pat.length - 1) rest
    else c :: jsReplaceOnceAux pat repl rest

/-- `s.replace(pat, repl)` for a string pattern (first occurrence only). -/
def jsReplaceOnce (s pat repl : String) : String :=
  match pat.toList with
  | [] => String.mk (repl.toList ++ s.toList)
  | _ => String.mk (jsReplaceOnceAux pat.toList repl.toList s.toList)

/-- `buildMaps`: the node table, in array-index order (`Map` iteration is
insertion order).  A record enters it when it is truthy and its `__type__`
is exactly the string `cc.Node`.  (The component table built alongside it is
never read by the parser, which resolves component references directly
against the flat array, so it is not modelled.) -/
def isNodeRecord (v : JVal) : Bool :=
  v.truthy && (getField v "__type__" == some (.str "cc.Node"))

/-- The `nodeMap` of `buildMaps` as an indexed list. -/
def nodeMapOf (data : List JVal) : List (Nat × JVal) :=
  (data.enum.filter fun e => isNodeRecord e.2)

/-- `findRootNode`'s per-node criterion, negated: the node *has* a parent
when `node._parent` is truthy and carries a defined `__id__` property. -/
def hasResolvableParent (node : JVal) : Bool :=
  match getField node "_parent" with
  | none => false
  | some p => p.truthy && (getField p "__id__").isSome

/-- `findRootNode`: first node in array order whose parent reference is
absent or lacks a defined `__id__`. -/
def findRootNode (data : List JVal) : Option (Nat × JVal) :=
  (nodeMapOf data).find? fun e => !hasResolvableParent e.2

/-- `parseVector3`. -/
def parseVector3 (data : JVal) : JVal :=
  if !data.truthy then .null
  else .obj [("x", jsOr (getField data "x") (.num 0)),
             ("y", jsOr (getField data "y") (.num 0)),
             ("z", jsOr (getField data "z") (.num 0))]

/-- `parseQuaternion`. -/
def parseQuaternion (data : JVal) : JVal :=
  if !data.truthy then .null
  else .obj [("x", jsOr (getField data "x") (.num 0)),
             ("y", jsOr (getField data "y") (.num 0)),
             ("z", jsOr (getField data "z") (.num 0)),
             ("w", match getField data "w" with
                   | some w => w
                   | none => .num 1)]

/-- `resolveReference(refId)`. -/
def resolveReference (data : List JVal) (refId : JVal) : JVal :=
  match jvalIdx data refId with
  | none => .obj [("__ref__", refId)]
  | some refData =>
    if !refData.truthy then .obj [("__ref__", refId)]
    else if truthyO (getField refData "__type__") then
      .obj [("__type__", (getField refData "__type__").getD .null), ("__ref__", refId)]
    else refData

/-- The per-field transformation of `parseComponent`: a truthy object value
with a defined `__id__` is resolved, everything else is copied verbatim. -/
def parseCompValue (data : List JVal) (v : JVal) : JVal :=
  if v.truthy then
    match getField v "__id__" with
    | some rid => resolveReference data rid
    | none => v
  else v

/-- `parseComponent`: copy every field except `__type__`, resolving
reference-shaped values. -/
def parseComponent (data : List JVal) (component : JVal) : JVal :=
  match component with
  | .obj fs =>
    .obj (fs.foldl (fun acc kv =>
      if kv.1 = "__type__" then acc else assocSet acc kv.1 (parseCompValue data kv.2)) [])
  | _ => .obj []

/-- The `_components` loop of `parseNode`: each truthy reference with a
defined `__id__` whose target is a truthy record with a truthy (string)
`__type__` contributes `components[compType] = parseComponent(...)` plus the
`__compId__` marker.  A non-string truthy `__type__` would throw in
JavaScript at `.replace` and cannot occur in JSON-derived data. -/
def parseNodeComponents (data : List JVal) :
    List JVal → List (String × JVal) → List (String × JVal)
  | [], acc => acc
  | compRef :: rest, acc =>
    parseNodeComponents data rest
      (if compRef.truthy then
        match getField compRef "__id__" with
        | some compId =>
          match jvalIdx data compId with
          | some component =>
            if component.truthy then
              match getField component "__type__" with
              | some (.str t) =>
                if (JVal.str t).truthy then
                  let compType := jsReplaceOnce t "cc." ""
                  assocSet acc compType
                    (setFieldJS (parseComponent data component) "__compId__" compId)
                else acc
              | _ => acc
            else acc
          | none => acc
        | none => acc
      else acc)

/-- The display name a child is stored under:
`childNode._name || Node_${childRef.__id__}` (object keys are string-coerced). -/
def childNameOf (childNode : JVal) (n : Int) : String :=
  match getField childNode "_name" with
  | some v => if v.truthy then jsToString v else "Node_" ++ toString n
  | none => "Node_" ++ toString n

/-- The eligibility test of one `_children` loop iteration: a truthy
reference with a numeric `__id__` whose target is a truthy `cc.Node` record
contributes a binding (display name, slot, record); every other reference is
silently skipped. -/
def childBindingOf (data : List JVal) (childRef : JVal) : Option (String × Int × JVal) :=
  if childRef.truthy then
    match getField childRef "__id__" with
    | some (.num n) =>
      match listIdx data n with
      | some childNode =>
        if childNode.truthy && (getField childNode "__type__" == some (.str "cc.Node")) then
          some (childNameOf childNode n, n, childNode)
        else none
      | none => none
    | some _ => none
    | none => none
  else none

/-- The `_children` loop of `parseNode`, parameterized by the recursive
node-parsing call `pn`: each eligible reference is parsed recursively and
assigned under its display name (duplicate names overwrite the earlier
binding, JavaScript object-assignment semantics). -/
def parseChildren (pn : Int → JVal → Option JVal) (data : List JVal) :
    List JVal → List (String × JVal) → Option (List (String × JVal))
  | [], acc => some acc
  | childRef :: rest, acc =>
    match childBindingOf data childRef with
    | some (childName, n, childNode) =>
      match pn n childNode with
      | none => none
      | some parsed => parseChildren pn data rest (assocSet acc childName parsed)
    | none => parseChildren pn data rest acc

/-- `parseNode(nodeIndex, nodeData)`.  Builds
`{components, children, __nodeId__}` and then appends the basic node
properties in source order.  `none` models stack exhaustion on cyclic data
(the fuel decreases once per recursive descent). -/
def parseNode (data : List JVal) : Nat → Int → JVal → Option JVal
  | 0, _, _ => none
  | fuel + 1, nodeIndex, nodeData =>
    let comps : List (String × JVal) :=
      match getField nodeData "_components" with
      | some (.arr refs) => parseNodeComponents data refs []
      | _ => []
    match (match getField nodeData "_children" with
           | some (.arr refs) => parseChildren (fun n cn => parseNode data fuel n cn) data refs []
           | _ => some []) with
    | none => none
    | some childs =>
      let base := [("components", JVal.obj comps), ("children", JVal.obj childs),
                   ("__nodeId__", JVal.num nodeIndex)]
      let b1 := match getField nodeData "_active" with
                | some v => assocSet base "active" v
                | none => base
      let b2 := if truthyO (getField nodeData "_lpos") then
                  assocSet b1 "position" (parseVector3 ((getField nodeData "_lpos").getD .null))
                else b1
      let b3 := if truthyO (getField nodeData "_lrot") then
                  assocSet b2 "rotation" (parseQuaternion ((getField nodeData "_lrot").getD .null))
                else b2
      let b4 := if truthyO (getField nodeData "_euler") then
                  assocSet b3 "euler" (parseVector3 ((getField nodeData "_euler").getD .null))
                else b3
      let b5 := if truthyO (getField nodeData "_lscale") then
                  assocSet b4 "scale" (parseVector3 ((getField nodeData "_lscale").getD .null))
                else b4
      some (.obj b5)

/-- `buildNodeTree`: wrap the parsed root under its display name
(`_name || 'Root'`). -/
def buildNodeTree (data : List JVal) (rootIndex : Nat) (rootNode : JVal) : Option JVal :=
  match parseNode data (data.length + 1) (Int.ofNat rootIndex) rootNode with
  | none => none
  | some parsed =>
    let nodeName := match getField rootNode "_name" with
                    | some v => if v.truthy then jsToString v else "Root"
                    | none => "Root"
    some (.obj [(nodeName, parsed)])

/-- Failure modes of `CocosPrefabParser.parse`.  `stackOverflow` stands for
the `RangeError` JavaScript raises on cyclic child chains. -/
inductive ParseErr where
  | malformedGraph
  | rootNotFound
  | stackOverflow
  deriving DecidableEq

/-- `CocosPrefabParser.parse`: `throw 'Invalid prefab data format'` when the
input is not an array (`!this.prefabData || !Array.isArray(...)` — an array
is always truthy, so the test reduces to the array check), then
`'Root node not found'` when no root qualifies. -/
def CocosPrefabParser.parse (prefabData : JVal) : Except ParseErr JVal :=
  match prefabData with
  | .arr data =>
    match findRootNode data with
    | none => .error .rootNotFound
    | some e =>
      match buildNodeTree data e.1 e.2 with
      | some t => .ok t
      | none => .error .stackOverflow
  | _ => .error .malformedGraph

/-- `parsePrefab`: the try/catch wrapper — every parse error becomes `null`.
(The constructor's `JSON.parse` of string input happens before the embedded
boundary; the embedding takes the already-parsed value.) -/
def parsePrefab (prefabContent : JVal) : Option JVal :=
  match CocosPrefabParser.parse prefabContent with
  | .ok tree => some tree
  | .error _ => none

/-! ## Migration driver configuration (unnamed source file, configuration area)

The static tables are translated literally.  A field-map entry maps a v3
field name to either a single v2 field name or a list of them
(`string | string[]` in the source). -/

/-- `string | string[]` valued field-map entry. -/
inductive FieldTargets where
  | one (s : String)
  | many (l : List String)
  deriving DecidableEq

/-- One entry of a `COMPONENT_TRANSFORM_RULES` rule list. -/
structure TransformRule where
  target : String
  fieldMap : List (String × FieldTargets)
  deriving DecidableEq

/-- `COMPONENT_TRANSFORM_RULES`. -/
def COMPONENT_TRANSFORM_RULES : List (String × List TransformRule) :=
  [("UIOpacity",
    [⟨"Node", [("_opacity", .one "_opacity")]⟩]),
   ("UITransform",
    [⟨"Node", [("_anchorPoint", .one "_anchorPoint"), ("_contentSize", .one "_contentSize")]⟩]),
   ("Label",
    [⟨"Node", [("_color", .one "_color")]⟩,
     ⟨"Label", [("_verticalAlign", .one "_N$verticalAlign"),
                ("_horizontalAlign", .one "_N$horizontalAlign"),
                ("_fontFamily", .one "_N$fontFamily"),
                ("_overflow", .one "_N$overflow"),
                ("_cacheMode", .one "_N$cacheMode"),
                ("_string", .one "_N$string"),
                ("_font", .one "_N$file")]⟩]),
   ("Sprite",
    [⟨"Node", [("_color", .one "_color")]⟩]),
   ("Button",
    [⟨"Button", [("_transition", .many ["_N$transition", "transition"]),
                 ("_interactable", .one "_N$interactable"),
                 ("_normalColor", .one "_N$normalColor"),
                 ("_target", .one "_N$target"),
                 ("_duration", .one "duration"),
                 ("_zoomScale", .one "zoomScale"),
                 ("_hoverColor", .many ["_N$hoverColor", "hoverColor"]),
                 ("_pressedColor", .many ["_N$pressedColor", "pressedColor"]),
                 ("_disabledColor", .many ["_N$disabledColor", "disabledColor"]),
                 ("_normalSprite", .many ["_N$normalSprite", "normalSprite"]),
                 ("_hoverSprite", .many ["_N$hoverSprite", "hoverSprite"]),
                 ("_pressedSprite", .many ["_N$pressedSprite", "pressedSprite"]),
                 ("_disabledSprite", .many ["_N$disabledSprite", "disabledSprite"])]⟩])]

/-- One entry of `SCRIPT_UUID_MAP` (`fieldMap` is optional in the source). -/
structure ScriptCfg where
  target : String
  fieldMap : Option (List (String × String))
  deriving DecidableEq

/-- `SCRIPT_UUID_MAP`. -/
def SCRIPT_UUID_MAP : List (String × ScriptCfg) :=
  [("25f8fxwtsZCT7yF0lzyt5zU", ⟨"8bab7e0c-0380-491c-b66f-b2bef75657c2", none⟩),
   ("08e1e8nYqFCd7dX6KiiPt2N", ⟨"0657750f-91c5-4c19-9bfb-6c10d21f4687", none⟩),
   ("7d729a50-deea-4c4b-8e3a-d1159eb9a33a", ⟨"a42b0a21-b23f-45bf-87b2-92143c8781da", none⟩)]

/-- A normalized script-map entry: `buildNormalizedScriptMap` materializes
`fieldMap: config.fieldMap || {}`, so the normalized field map is always an
object (hence always truthy where the generator tests it). -/
structure NormalizedCfg where
  target : String
  fieldMap : List (String × String)
  deriving DecidableEq

/-- `buildNormalizedScriptMap` (from `util`, re-exported next to the codec):
keys and targets are normalized to the short form; a missing `fieldMap`
becomes the empty object. -/
def buildNormalizedScriptMap (scriptMap : List (String × ScriptCfg)) :
    List (String × NormalizedCfg) :=
  scriptMap.foldl
    (fun result e =>
      assocSet result (normalizeToShort e.1)
        ⟨normalizeToShort e.2.target, e.2.fieldMap.getD []⟩)
    []

/-- `NORMALIZED_SCRIPT_UUID_MAP`. -/
def NORMALIZED_SCRIPT_UUID_MAP : List (String × NormalizedCfg) :=
  buildNormalizedScriptMap SCRIPT_UUID_MAP

/-- `COMPONENTS_TO_REMOVE`. -/
def COMPONENTS_TO_REMOVE : List String := ["UIOpacity", "UITransform"]

/-- `FIELD_WHITELIST` (empty in the source configuration). -/
def FIELD_WHITELIST : List (String × List String) := []

/-- `shouldMigrateField`, parameterized by the whitelist table it closes
over (the source constant is `FIELD_WHITELIST`): reserved fields never
migrate; when the component kind has a whitelist entry (any array is truthy,
including an empty one) only listed fields migrate. -/
def shouldMigrateField (whitelist : List (String × List String))
    (compType fieldName : String) : Bool :=
  if fieldName = "node" ∨ fieldName = "__compId__" ∨ fieldName = "__ref__" then false
  else
    match assocFind whitelist compType with
    | some l => l.contains fieldName
    | none => true

/-! ## Migration instructions -/

/-- The tagged instruction records pushed by the generators.  Slot ids are
read out of tree nodes with `getIntField`; `compIndex` is the
`Array.prototype.findIndex` result recorded by removal planning. -/
inductive Instruction where
  | TRANSFORM_TO_NODE (targetNodeId : Int) (field : String) (value : JVal) (source : String)
  | TRANSFORM_TO_COMPONENT (targetCompId : Int) (field : String) (value : JVal) (source : String)
  | MIGRATE_COMPONENT (targetCompId : Int) (componentType : String) (fields : List (String × JVal))
  | REPLACE_COMPONENT_TYPE (nodeId : Int) (nodePath : String) (oldCompId : Int)
      (oldCompType : String) (newCompType : String) (fieldsToMigrate : List (String × JVal))
  | REMOVE_COMPONENT (nodeId : Int) (compId : Int) (compType : String) (compIndex : Int)
      (nodePath : String)
  | REPLACE_STRING_GLOBAL (fromStr : String) (toStr : String)
  deriving DecidableEq

/-- Numeric id read of a tree-node property (`__nodeId__` / `__compId__`).
On tree-shaped data the property is always an integer; a missing or
non-numeric id would make the applier's array lookup miss exactly like the
never-valid index `-1`. -/
def getIntField (o : JVal) (k : String) : Int :=
  match getField o k with
  | some (.num n) => n
  | _ => -1

/-- Component lookup `node.components[kind]` on a tree node. -/
def compOf (node : JVal) (kind : String) : Option JVal :=
  match getField node "components" with
  | some c => getField c kind
  | none => none

/-- JavaScript strict equality `===` between two possibly-`undefined` values
(`undefined === undefined` is `true`).  The ids compared by removal planning
are numbers; for object operands `===` would be identity, which structural
equality over-approximates, but object-valued ids do not occur in
tree-shaped data. -/
def optStrictEq (a b : Option JVal) : Bool :=
  match a, b with
  | none, none => true
  | some x, some y => x == y
  | _, _ => false

/-- `findIndex` over a component-reference list, comparing `ref.__id__`
against a target id with `===`; `-1` when absent. -/
def jsFindIndexId (refs : List JVal) (target : Option JVal) : Int :=
  match refs.findIdx? (fun r => optStrictEq (getField r "__id__") target) with
  | some i => (i : Int)
  | none => -1

/-- Stable insertion of `x` after every already-placed element `y` with
`le y x` — the building block of `jsSort`. -/
def stableInsert {α : Type} (le : α → α → Bool) (x : α) : List α → List α
  | [] => [x]
  | y :: ys => if le y x then y :: stableInsert le x ys else x :: y :: ys

/-- `Array.prototype.sort(cmp)` for the two numeric comparators the source
uses: a stable sort with respect to `le a b ↔ cmp(a,b) ≤ 0` (ECMAScript
requires sort stability). -/
def jsSort {α : Type} (le : α → α → Bool) (l : List α) : List α :=
  l.foldl (fun acc x => stableInsert le x acc) []

/-! ## Migration compiler (`generateMigrationInstructions` and friends) -/

/-- The `string | string[]` normalization `Array.isArray(v2Field) ? v2Field :
[v2Field]`. -/
def targetsOf : FieldTargets → List String
  | .one s => [s]
  | .many l => l

/-- One transform rule applied to one matched component pair: the
`transformRule.target === "Node"` branch emits `TRANSFORM_TO_NODE` per mapped
field (and per destination name), the other branch requires the target
component kind to exist (truthily) on the matched v2 node and rewrites
tree-resolved references (`{__type__, __ref__}`) back to raw `{__id__}`
references. -/
def genTransformRule (v2Node : JVal) (compType : String) (v3Comp : JVal)
    (rule : TransformRule) : List Instruction :=
  if rule.target = "Node" then
    rule.fieldMap.foldl
      (fun acc fm =>
        match getField v3Comp fm.1 with
        | some v =>
          if v ≠ .null then
            acc ++ (targetsOf fm.2).map (fun field =>
              .TRANSFORM_TO_NODE (getIntField v2Node "__nodeId__") field v
                (compType ++ "." ++ fm.1))
          else acc
        | none => acc)
      []
  else
    match compOf v2Node rule.target with
    | some v2TargetComp =>
      if v2TargetComp.truthy then
        rule.fieldMap.foldl
          (fun acc fm =>
            match getField v3Comp fm.1 with
            | some v =>
              if v ≠ .null then
                let vv := if truthyO (getField v "__type__") && truthyO (getField v "__ref__")
                          then JVal.obj [("__id__", (getField v "__ref__").getD .null)]
                          else v
                acc ++ (targetsOf fm.2).map (fun field =>
                  .TRANSFORM_TO_COMPONENT (getIntField v2TargetComp "__compId__") field vv
                    (compType ++ "." ++ fm.1))
              else acc
            | none => acc)
          []
      else []
    | none => []

/-- The `fieldsToMigrate` collection loop of the generic component-field
migration: a field migrates when its source value is neither `null` nor
`undefined`, the same-named field exists on the v2 component, the value is
not a tree-resolved cross-reference (`__type__ && __ref__` both truthy), and
`shouldMigrateField` allows it. -/
def migrateFieldsOf (v3Comp v2Comp : JVal) (compType : String) : List (String × JVal) :=
  match v3Comp with
  | .obj fs =>
    fs.foldl
      (fun acc kv =>
        if kv.2 = .null then acc
        else
          match getField v2Comp kv.1 with
          | none => acc
          | some _ =>
            if truthyO (getField kv.2 "__type__") && truthyO (getField kv.2 "__ref__") then acc
            else if shouldMigrateField FIELD_WHITELIST compType kv.1 then acc ++ [(kv.1, kv.2)]
            else acc)
      []
  | _ => []

/-- Per-component instruction generation: transform rules first (in table
order), then the bundled `MIGRATE_COMPONENT` instruction when the matched v2
component exists and at least one field qualifies. -/
def genForComponent (v2Node : JVal) (compType : String) (v3Comp : JVal) : List Instruction :=
  (match assocFind COMPONENT_TRANSFORM_RULES compType with
   | some rules => rules.foldl (fun acc r => acc ++ genTransformRule v2Node compType v3Comp r) []
   | none => [])
  ++
  (match compOf v2Node compType with
   | some v2Comp =>
     if v2Comp.truthy then
       let ftm := migrateFieldsOf v3Comp v2Comp compType
       if ftm ≠ [] then [.MIGRATE_COMPONENT (getIntField v2Comp "__compId__") compType ftm]
       else []
     else []
   | none => [])

/-- All instructions for one matched node pair (components iterated in tree
insertion order). -/
def genForNode (v3Node v2Node : JVal) : List Instruction :=
  match getField v3Node "components" with
  | some (.obj comps) => comps.foldl (fun acc kv => acc ++ genForComponent v2Node kv.1 kv.2) []
  | _ => []

/-- `generateMigrationInstructions(v3PathMap, v2PathMap)`: paths present only
in v3 are skipped with a diagnostic; matched pairs contribute their
per-component instructions in path-map order. -/
def generateMigrationInstructions (v3PathMap v2PathMap : List (String × JVal)) :
    List Instruction :=
  v3PathMap.foldl
    (fun acc pv =>
      match assocFind v2PathMap pv.1 with
      | some v2Node => if v2Node.truthy then acc ++ genForNode pv.2 v2Node else acc
      | none => acc)
    []

/-- `generateRemovalInstructions(v2PathMap, v2PrefabData)`: for every
path-mapped node, every tree component whose kind is in
`COMPONENTS_TO_REMOVE` and whose reference can be located (by `__id__ ===
__compId__`) in the owning node's `_components` array yields one
`REMOVE_COMPONENT` instruction recording the found position. -/
def generateRemovalInstructions (v2PathMap : List (String × JVal))
    (v2PrefabData : List JVal) : List Instruction :=
  v2PathMap.foldl
    (fun acc pv =>
      match getField pv.2 "components" with
      | some (.obj comps) =>
        comps.foldl
          (fun a kv =>
            if COMPONENTS_TO_REMOVE.contains kv.1 then
              match listIdx v2PrefabData (getIntField pv.2 "__nodeId__") with
              | some nodeData =>
                if nodeData.truthy && truthyO (getField nodeData "_components") then
                  match getField nodeData "_components" with
                  | some (.arr refs) =>
                    let compIndex := jsFindIndexId refs (getField kv.2 "__compId__")
                    if compIndex ≠ -1 then
                      a ++ [.REMOVE_COMPONENT (getIntField pv.2 "__nodeId__")
                              (getIntField kv.2 "__compId__") kv.1 compIndex pv.1]
                    else a
                  | _ => a
                else a
              | none => a
            else a)
          acc
      | _ => acc)
    []

/-- `generateScriptReplacementInstructions(v3PathMap, v2PathMap)`: for every
matched pair, a v3 component kind listed in `NORMALIZED_SCRIPT_UUID_MAP`
whose same-kind v2 component exists produces one `REPLACE_COMPONENT_TYPE`
instruction.  A normalized rule's `fieldMap` is always an (always-truthy)
object, so the source's copy-all-fields `else` branch is unreachable; the
mapped-fields branch collects only mapped, non-null source values under
their renamed keys. -/
def generateScriptReplacementInstructions (v3PathMap v2PathMap : List (String × JVal)) :
    List Instruction :=
  v3PathMap.foldl
    (fun acc pv =>
      match assocFind v2PathMap pv.1 with
      | some v2Node =>
        if v2Node.truthy then
          match getField pv.2 "components" with
          | some (.obj comps) =>
            comps.foldl
              (fun a kv =>
                match assocFind NORMALIZED_SCRIPT_UUID_MAP kv.1 with
                | some mappingRule =>
                  match compOf v2Node kv.1 with
                  | some v2CompToReplace =>
                    if v2CompToReplace.truthy then
                      let ftm := mappingRule.fieldMap.foldl
                        (fun m fm =>
                          match getField kv.2 fm.1 with
                          | some v => if v ≠ .null then assocSet m fm.2 v else m
                          | none => m)
                        []
                      a ++ [.REPLACE_COMPONENT_TYPE (getIntField v2Node "__nodeId__") pv.1
                              (getIntField v2CompToReplace "__compId__") kv.1
                              mappingRule.target ftm]
                    else a
                  | none => a
                | none => a)
              acc
          | _ => acc
        else acc
      | none => acc)
    []

/-- The comparator key of the `res.sort` call: entries whose `from` contains
`@` sort first, all others keep relative order (comparator returns 0). -/
def atSortKey : Instruction → Nat
  | .REPLACE_STRING_GLOBAL f _ => if f.toList.contains '@' then 0 else 1
  | _ => 1

/-- `generateGlobalStringReplaceInstructions`: the source derives a key →
v2Uuid association by reading two JSON datasets from disk and running
`generateUuidMapping`; those file contents are external inputs, so the
derived association is the `mapping` parameter here.  One
`REPLACE_STRING_GLOBAL` instruction per pair, sorted so entries whose `from`
contains `@` come first (the comparator returns 0 otherwise, preserving
original order), then the fixed fallback pair is appended. -/
def generateGlobalStringReplaceInstructions (mapping : List (String × String)) :
    List Instruction :=
  let res := mapping.map (fun kv => Instruction.REPLACE_STRING_GLOBAL kv.1 kv.2)
  let sorted := jsSort (fun a b => atSortKey a ≤ atSortKey b) res
  sorted ++ [.REPLACE_STRING_GLOBAL "@f9941" "@6c48a"]

/-! ## Compactor/reindexer (`compactAndReindexPrefab`) -/

/-- A vacated slot: `null` or `undefined` (`delete` leaves an `undefined`
hole). -/
def isTombstone (v : JVal) : Bool := v == JVal.null

/-- `oldToNewIdMap` as a rank computation: `some r` when slot `i` of `data`
is live, where `r` counts the live slots before it; `none` for tombstones
and out-of-range indices (a `Map.get` miss). -/
def rankFrom : List JVal → Nat → Option Nat
  | [], _ => none
  | x :: _, 0 => if isTombstone x then none else some 0
  | x :: xs, n + 1 => (rankFrom xs n).map (fun r => if isTombstone x then r else r + 1)

/-- The old-index → new-index `Map` built by the first pass of
`compactAndReindexPrefab`. -/
def oldToNewIdMap (data : List JVal) (oldId : Int) : Option Int :=
  if oldId < 0 then none
  else (rankFrom data oldId.toNat).map Int.ofNat

/-- `__id__` rewrite of `updateReferences`: a numeric id found in the map is
replaced by its new index; a dangling or non-numeric id is warned about and
left unchanged. -/
def rewriteId (m : Int → Option Int) : JVal → JVal
  | .num oldId =>
    match m oldId with
    | some newId => .num newId
    | none => .num oldId
  | v => v

mutual

/-- `updateReferences`: recursive walk rewriting every object's `__id__`
property through the old → new map; all other properties and array elements
are walked recursively (the `__id__` property itself is not descended
into). -/
def updateRefs (m : Int → Option Int) : JVal → JVal
  | .arr xs => .arr (updateRefsList m xs)
  | .obj fs => .obj (updateRefsFields m fs)
  | v => v

/-- `updateReferences` over array elements. -/
def updateRefsList (m : Int → Option Int) : List JVal → List JVal
  | [] => []
  | x :: xs => updateRefs m x :: updateRefsList m xs

/-- `updateReferences` over object properties. -/
def updateRefsFields (m : Int → Option Int) :
    List (String × JVal) → List (String × JVal)
  | [] => []
  | (k, v) :: fs =>
    (k, if k = "__id__" then rewriteId m v else updateRefs m v) :: updateRefsFields m fs

end

/-- `compactAndReindexPrefab`: build the old → new map, drop tombstones (the
source's reverse-order `splice` loop removes exactly the `null`/`undefined`
slots, i.e. a stable filter of the live ones), then rewrite every reference
in every surviving record. -/
def compactAndReindexPrefab (prefabData : List JVal) : List JVal :=
  let m := oldToNewIdMap prefabData
  let compactedData := prefabData.filter (fun x => !isTombstone x)
  compactedData.map (updateRefs m)

/-! ## Instruction appliers -/

/-- `applyMigrationInstructions`: direct field assignment on the addressed
slot; a missing (or, for nodes, non-`cc.Node`) target makes the instruction
a silent no-op.  Instruction kinds outside the switch are ignored. -/
def applyMigrationInstructions (v2PrefabData : List JVal)
    (instructions : List Instruction) : List JVal :=
  instructions.foldl
    (fun data ins =>
      match ins with
      | .TRANSFORM_TO_NODE targetNodeId field value _ =>
        match listIdx data targetNodeId with
        | some node =>
          if node.truthy && (getField node "__type__" == some (.str "cc.Node")) then
            listSet data targetNodeId (setFieldJS node field value)
          else data
        | none => data
      | .TRANSFORM_TO_COMPONENT targetCompId field value _ =>
        match listIdx data targetCompId with
        | some comp =>
          if comp.truthy then listSet data targetCompId (setFieldJS comp field value) else data
        | none => data
      | .MIGRATE_COMPONENT targetCompId _ fields =>
        match listIdx data targetCompId with
        | some comp =>
          if comp.truthy then
            listSet data targetCompId (fields.foldl (fun c fv => setFieldJS c fv.1 fv.2) comp)
          else data
        | none => data
      | _ => data)
    v2PrefabData

/-- `applyScriptReplacementInstructions`: overwrite the old component's
`__type__` (when truthy) and assign every mapped field; a missing node or
old component skips the instruction with a diagnostic.  The final
unconditional `compactAndReindexPrefab` call is part of the function.
(Its generator emits only `REPLACE_COMPONENT_TYPE` records.) -/
def applyScriptReplacementInstructions (v2PrefabData : List JVal)
    (instructions : List Instruction) : List JVal :=
  compactAndReindexPrefab
    (instructions.foldl
      (fun d ins =>
        match ins with
        | .REPLACE_COMPONENT_TYPE nodeId _ oldCompId _ newCompType ftm =>
          match listIdx d nodeId, listIdx d oldCompId with
          | some node, some oldComp =>
            if node.truthy && oldComp.truthy then
              let c1 := if truthyO (getField oldComp "__type__")
                        then setFieldJS oldComp "__type__" (.str newCompType)
                        else oldComp
              listSet d oldCompId (ftm.foldl (fun c fv => setFieldJS c fv.1 fv.2) c1)
            else d
          | _, _ => d
        | _ => d)
      v2PrefabData)

/-- Descending-`compIndex` order used by `applyRemovalInstructions`
(`(a, b) => b.compIndex - a.compIndex`); only `REMOVE_COMPONENT` records are
ever sorted, other kinds compare as index 0. -/
def removalCompIndex : Instruction → Int
  | .REMOVE_COMPONENT _ _ _ compIndex _ => compIndex
  | _ => 0

/-- The removal loop of `applyRemovalInstructions` (before compaction): for
each instruction, splice the recorded position out of the owning node's
`_components` when it is in range, then `delete` the component's slot
(leaving an `undefined` hole) when the component record was truthy at the
start of the iteration. -/
def removalLoop (instructions : List Instruction) (data : List JVal) : List JVal :=
  instructions.foldl
    (fun d ins =>
      match ins with
      | .REMOVE_COMPONENT nodeId compId _ compIndex _ =>
        let comp := listIdx d compId
        match listIdx d nodeId with
        | some n =>
          if n.truthy && truthyO (getField n "_components") then
            let d1 :=
              match getField n "_components" with
              | some (.arr refs) =>
                if 0 ≤ compIndex ∧ compIndex < (refs.length : Int) then
                  listSet d nodeId (setFieldJS n "_components" (.arr (refs.eraseIdx compIndex.toNat)))
                else d
              | _ => d
            if truthyO comp then listSet d1 compId .null else d1
          else d
        | none => d
      | _ => d)
    data

/-- `applyRemovalInstructions`: sort a copy of the instruction list by
descending recorded position, run the removal loop, then compact and
reindex. -/
def applyRemovalInstructions (v2PrefabData : List JVal)
    (removalInstructions : List Instruction) : List JVal :=
  let sortedInstructions :=
    jsSort (fun a b => removalCompIndex b ≤ removalCompIndex a) removalInstructions
  compactAndReindexPrefab (removalLoop sortedInstructions v2PrefabData)

/-! ## Global string substitution (`applyStringReplaceInstructions`) -/

/-- `"".split()` edge of `split/join`: splitting on the empty string yields
the character list, so joining interleaves the replacement between adjacent
characters. -/
def jsEmptySplitJoin : List Char → List Char → List Char
  | [], _ => []
  | [c], _ => [c]
  | c :: rest, repl => c :: (repl ++ jsEmptySplitJoin rest repl)

/-- Greedy left-to-right replacement of all non-overlapping occurrences of a
non-empty pattern (`str.split(from).join(to)`).  The fuel starts at the
string length and only bounds the recursion (each step consumes at least one
character). -/
def scanReplaceAux (pat repl : List Char) : Nat → List Char → List Char
  | _, [] => []
  | 0, s => s
  | f + 1, c :: rest =>
    if List.isPrefixOf pat (c :: rest) then
      repl ++ scanReplaceAux pat repl f (List.drop (pat.length - 1) rest)
    else c :: scanReplaceAux pat repl f rest

/-- `replaceString(str, from, to)` for a string pattern:
`str.includes(from) ? str.split(from).join(to) : str` (the two branches
agree, since splitting without a match yields the singleton list). -/
def replaceString (str fromS toS : String) : String :=
  match fromS.toList with
  | [] => String.mk (jsEmptySplitJoin str.toList toS.toList)
  | _ => String.mk (scanReplaceAux fromS.toList toS.toList str.toList.length str.toList)

mutual

/-- The mutation effect of `traverse(obj, from, to)`: strings stored in
arrays and objects are replaced in place; a falsy value, a number, a
boolean — and the argument itself when it is a string, whose replacement the
caller discards — are left unchanged. -/
def traverseReplace (fromS toS : String) : JVal → JVal
  | .arr xs => .arr (traverseReplaceList fromS toS xs)
  | .obj fs => .obj (traverseReplaceFields fromS toS fs)
  | v => v

/-- `traverse` over array elements (strings replaced, others recursed). -/
def traverseReplaceList (fromS toS : String) : List JVal → List JVal
  | [] => []
  | .str s :: rest => .str (replaceString s fromS toS) :: traverseReplaceList fromS toS rest
  | x :: rest => traverseReplace fromS toS x :: traverseReplaceList fromS toS rest

/-- `traverse` over object properties. -/
def traverseReplaceFields (fromS toS : String) :
    List (String × JVal) → List (String × JVal)
  | [] => []
  | (k, .str s) :: rest =>
    (k, .str (replaceString s fromS toS)) :: traverseReplaceFields fromS toS rest
  | (k, v) :: rest => (k, traverseReplace fromS toS v) :: traverseReplaceFields fromS toS rest

end

/-- `applyStringReplaceInstructions`: instructions applied strictly in list
order; non-`REPLACE_STRING_GLOBAL` records are skipped; each instruction
traverses every record of the array in order.  (A top-level record that is
itself a string is not replaced: the source discards `traverse`'s return
value.) -/
def applyStringReplaceInstructions (prefabData : List JVal)
    (instructions : List Instruction) : List JVal :=
  instructions.foldl
    (fun data ins =>
      match ins with
      | .REPLACE_STRING_GLOBAL fromS toS =>
        data.map (fun item => traverseReplace fromS toS item)
      | _ => data)
    prefabData

/-! ## Path matcher (`buildPathMap`) -/

mutual

/-- Structural size of an embedded value, used as recursion fuel for the
path-map walk (JavaScript recursion needs none; any fuel at least the size
reaches every descendant). -/
def jvalSize : JVal → Nat
  | .arr xs => 1 + jvalSizeList xs
  | .obj fs => 1 + jvalSizeFields fs
  | _ => 1

/-- Size of array elements. -/
def jvalSizeList : List JVal → Nat
  | [] => 0
  | x :: xs => jvalSize x + jvalSizeList xs

/-- Size of object properties. -/
def jvalSizeFields : List (String × JVal) → Nat
  | [] => 0
  | (_, v) :: fs => 1 + jvalSize v + jvalSizeFields fs

end

/-- The recursive `traverse(node, path)` of `buildPathMap`: records the node
under its path, then recurses over `Object.entries(node.children)` (when
truthy), extending the path with `/`. -/
def buildPathTraverse : Nat → JVal → String → List (String × JVal) → List (String × JVal)
  | 0, _, _, acc => acc
  | fuel + 1, node, path, acc =>
    let acc1 := assocSet acc path node
    match getField node "children" with
    | some (.obj fs) =>
      fs.foldl
        (fun a kv =>
          buildPathTraverse fuel kv.2 (if path ≠ "" then path ++ "/" ++ kv.1 else kv.1) a)
        acc1
    | _ => acc1

/-- `buildPathMap(tree)`: one traversal per root entry.  (On a parsed tree
the fuel `jvalSize tree + 1` reaches every descendant.) -/
def buildPathMap (tree : JVal) : List (String × JVal) :=
  match tree with
  | .obj roots =>
    roots.foldl (fun acc kv => buildPathTraverse (jvalSize tree + 1) kv.2 kv.1 acc) []
  | _ => []

/-! ## Main pipeline (`migratePrefab`) -/

/-- `migratePrefab(v3PrefabData, v2PrefabData)`: parse both graphs, build
both path maps, generate and apply migration instructions, script-type
replacements (followed by compaction), removal instructions (followed by
compaction), then the global string substitutions.  A failed parse returns
`null`, on which `buildPathMap` throws in JavaScript — modelled as `none`.
The global-substitution `mapping` is the externally derived identifier
association (read from disk in the source). -/
def migratePrefab (v3PrefabData v2PrefabData : JVal)
    (mapping : List (String × String)) : Option (List JVal) :=
  match parsePrefab v3PrefabData, parsePrefab v2PrefabData, v2PrefabData with
  | some v3Tree, some v2Tree, .arr v2l =>
    let v3PathMap := buildPathMap v3Tree
    let v2PathMap := buildPathMap v2Tree
    let instructions := generateMigrationInstructions v3PathMap v2PathMap
    let scriptInstructions := generateScriptReplacementInstructions v3PathMap v2PathMap
    let r1 := applyMigrationInstructions v2l instructions
    let r2 := applyScriptReplacementInstructions r1 scriptInstructions
    let removalInstructions := generateRemovalInstructions v2PathMap r2
    let r3 := applyRemovalInstructions r2 removalInstructions
    let stringReplaceInstructions := generateGlobalStringReplaceInstructions mapping
    some (applyStringReplaceInstructions r3 stringReplaceInstructions)
  | _, _, _ => none

/-- The sixteen lowercase hexadecimal digits. -/
def lowerHexChars : List Char :=
  ['0','1','2','3','4','5','6','7'] ++ ['8','9','a','b','c','d','e','f']

theorem hex_toDigits {d : Char} (h : d ∈ lowerHexChars) :
    Nat.toDigits 16 (hexValBits d) = [d] := by
  fin_cases h <;> decide

theorem hex_lt16 {d : Char} (h : d ∈ lowerHexChars) : hexValBits d < 16 := by
  fin_cases h <;> decide

theorem hex_ne_hyphen {d : Char} (h : d ∈ lowerHexChars) : d ≠ '-' := by
  fin_cases h <;> decide

theorem hex_toLower {d : Char} (h : d ∈ lowerHexChars) : d.toLower = d := by
  fin_cases h <;> decide

theorem base64_rt_fin : ∀ x : Fin 64, base64Val (base64Key x.1) = x.1 := by decide

theorem base64_rt {x : Nat} (h : x < 64) : base64Val (base64Key x) = x :=
  base64_rt_fin ⟨x, h⟩

theorem bit_rt : ∀ a b c : Fin 16,
    ((a.1 <<< 2) ||| (b.1 >>> 2)) >>> 2 = a.1 ∧
    (((((a.1 <<< 2) ||| (b.1 >>> 2)) &&& 3) <<< 2) |||
      (((((b.1 &&& 3) <<< 4) ||| c.1)) >>> 4)) = b.1 ∧
    ((((b.1 &&& 3) <<< 4) ||| c.1) &&& 15) = c.1 ∧
    ((a.1 <<< 2) ||| (b.1 >>> 2)) < 64 ∧ (((b.1 &&& 3) <<< 4) ||| c.1) < 64 := by decide

theorem tripleRT {d1 d2 d3 : Char} (h1 : d1 ∈ lowerHexChars) (h2 : d2 ∈ lowerHexChars)
    (h3 : d3 ∈ lowerHexChars) :
    Nat.toDigits 16
        ((base64Val (base64Key ((hexValBits d1 <<< 2) ||| (hexValBits d2 >>> 2)))) >>> 2) ++
      Nat.toDigits 16
        ((((base64Val (base64Key ((hexValBits d1 <<< 2) ||| (hexValBits d2 >>> 2)))) &&& 3) <<< 2) |||
          ((base64Val (base64Key (((hexValBits d2 &&& 3) <<< 4) ||| hexValBits d3))) >>> 4)) ++
      Nat.toDigits 16
        ((base64Val (base64Key (((hexValBits d2 &&& 3) <<< 4) ||| hexValBits d3))) &&& 15) =
      [d1, d2, d3] := by
  obtain ⟨e1, e2, e3, e4, e5⟩ :=
    bit_rt ⟨hexValBits d1, hex_lt16 h1⟩ ⟨hexValBits d2, hex_lt16 h2⟩ ⟨hexValBits d3, hex_lt16 h3⟩
  rw [base64_rt e4, base64_rt e5, e1, e2, e3, hex_toDigits h1, hex_toDigits h2, hex_toDigits h3]
  rfl

theorem mem_getD {l : List Char} {j : Nat} (d : Char) (h : j < l.length) :
    l.getD j d ∈ l := by
  rw [List.getD_eq_getElem _ _ h]; exact List.getElem_mem h

theorem drop_expand {l : List Char} {k : Nat} (h : k < l.length) (d : Char) :
    l.drop k = l.getD k d :: l.drop (k + 1) := by
  rw [List.drop_eq_getElem_cons h, List.getD_eq_getElem _ _ h]




theorem getD_append_right5 {l l' : List Char} {d : Char} {n : Nat} (h : l.length = 5)
    (hn : 5 ≤ n) : (l ++ l').getD n d = l'.getD (n - 5) d := by
  rw [List.getD_append_right _ _ _ _ (by omega), h]

theorem uuidRoundtrip (ds : List Char) (hlen : ds.length = 32)
    (hmem : ∀ c ∈ ds, c ∈ lowerHexChars) :
    decodeUuid (encodeUuid (uuidHyphenate ds) false) = uuidHyphenate ds := by
  have htl : (uuidHyphenate ds).toList =
      ds.take 8 ++ '-' :: ((ds.drop 8).take 4) ++ '-' :: ((ds.drop 12).take 4) ++
        '-' :: ((ds.drop 16).take 4) ++ '-' :: ds.drop 20 := rfl
  have hseg : ∀ l' : List Char, l' ⊆ ds → l'.filter (fun c => decide (c ≠ '-')) = l' := by
    intro l' hsub
    exact List.filter_eq_self.mpr (fun a ha => by simpa using hex_ne_hyphen (hmem a (hsub ha)))
  have hfilter : (uuidHyphenate ds).toList.filter (fun c => c ≠ '-') = ds := by
    rw [htl]
    simp only [List.filter_append, List.filter_cons, hseg _ (List.take_subset 8 ds),
      hseg _ (fun a ha => List.drop_subset 8 ds (List.take_subset 4 _ ha)),
      hseg _ (fun a ha => List.drop_subset 12 ds (List.take_subset 4 _ ha)),
      hseg _ (fun a ha => List.drop_subset 16 ds (List.take_subset 4 _ ha)),
      hseg _ (List.drop_subset 20 ds)]
    norm_num
    calc ds.take 8 ++ ((ds.drop 8).take 4 ++ ((ds.drop 12).take 4 ++ ((ds.drop 16).take 4 ++ ds.drop 20)))
        = (((ds.take 8 ++ (ds.drop 8).take 4) ++ (ds.drop 12).take 4) ++ (ds.drop 16).take 4) ++ ds.drop 20 := by
          simp [List.append_assoc]
      _ = ds.take 20 ++ ds.drop 20 := by
          rw [(List.take_add ds 8 4).symm, (List.take_add ds 12 4).symm, (List.take_add ds 16 4).symm]
      _ = ds := List.take_append_drop 20 ds
  have hhex : ((uuidHyphenate ds).toList.filter (fun c => c ≠ '-')).map Char.toLower = ds := by
    rw [hfilter]
    exact (List.map_congr_left (fun a ha => hex_toLower (hmem a ha))).trans (List.map_id ds)
  have hlen36 : (uuidHyphenate ds).length = 36 := by
    show ((uuidHyphenate ds).toList).length = 36
    rw [htl]
    simp [List.length_append, List.length_take, List.length_drop, hlen]
  have hE : encodePackFrom ds 5 =
    [base64Key ((hexValBits (ds.getD 5 '*') <<< 2) ||| (hexValBits (ds.getD 6 '*') >>> 2)),
       base64Key (((hexValBits (ds.getD 6 '*') &&& 3) <<< 4) ||| hexValBits (ds.getD 7 '*')),
       base64Key ((hexValBits (ds.getD 8 '*') <<< 2) ||| (hexValBits (ds.getD 9 '*') >>> 2)),
       base64Key (((hexValBits (ds.getD 9 '*') &&& 3) <<< 4) ||| hexValBits (ds.getD 10 '*')),
       base64Key ((hexValBits (ds.getD 11 '*') <<< 2) ||| (hexValBits (ds.getD 12 '*') >>> 2)),
       base64Key (((hexValBits (ds.getD 12 '*') &&& 3) <<< 4) ||| hexValBits (ds.getD 13 '*')),
       base64Key ((hexValBits (ds.getD 14 '*') <<< 2) ||| (hexValBits (ds.getD 15 '*') >>> 2)),
       base64Key (((hexValBits (ds.getD 15 '*') &&& 3) <<< 4) ||| hexValBits (ds.getD 16 '*')),
       base64Key ((hexValBits (ds.getD 17 '*') <<< 2) ||| (hexValBits (ds.getD 18 '*') >>> 2)),
       base64Key (((hexValBits (ds.getD 18 '*') &&& 3) <<< 4) ||| hexValBits (ds.getD 19 '*')),
       base64Key ((hexValBits (ds.getD 20 '*') <<< 2) ||| (hexValBits (ds.getD 21 '*') >>> 2)),
       base64Key (((hexValBits (ds.getD 21 '*') &&& 3) <<< 4) ||| hexValBits (ds.getD 22 '*')),
       base64Key ((hexValBits (ds.getD 23 '*') <<< 2) ||| (hexValBits (ds.getD 24 '*') >>> 2)),
       base64Key (((hexValBits (ds.getD 24 '*') &&& 3) <<< 4) ||| hexValBits (ds.getD 25 '*')),
       base64Key ((hexValBits (ds.getD 26 '*') <<< 2) ||| (hexValBits (ds.getD 27 '*') >>> 2)),
       base64Key (((hexValBits (ds.getD 27 '*') &&& 3) <<< 4) ||| hexValBits (ds.getD 28 '*')),
       base64Key ((hexValBits (ds.getD 29 '*') <<< 2) ||| (hexValBits (ds.getD 30 '*') >>> 2)),
       base64Key (((hexValBits (ds.getD 30 '*') &&& 3) <<< 4) ||| hexValBits (ds.getD 31 '*'))] := by
    rw [encodePackFrom]
    rw [show List.range' 5 ((32 - 5 + 2) / 3) 3 = [5, 8, 11, 14, 17, 20, 23, 26, 29] from rfl]
    simp only [List.foldr]
  set E := encodePackFrom ds 5 with hEdef
  have henc : encodeUuid (uuidHyphenate ds) false = String.mk (ds.take 5 ++ E) := by
    rw [encodeUuid, if_neg (by rw [hlen36]; exact fun h => h rfl)]
    simp only [Bool.false_eq_true, if_false, hhex]
  have htake5len : (List.take 5 ds).length = 5 := by simp [hlen]
  have hcs5 : (List.take 5 ds ++ E).getD 5 '*' = base64Key ((hexValBits (ds.getD 5 '*') <<< 2) ||| (hexValBits (ds.getD 6 '*') >>> 2)) := by
    rw [getD_append_right5 htake5len (by norm_num), hE]
    rfl
  have hcs6 : (List.take 5 ds ++ E).getD 6 '*' = base64Key (((hexValBits (ds.getD 6 '*') &&& 3) <<< 4) ||| hexValBits (ds.getD 7 '*')) := by
    rw [getD_append_right5 htake5len (by norm_num), hE]
    rfl
  have hcs7 : (List.take 5 ds ++ E).getD 7 '*' = base64Key ((hexValBits (ds.getD 8 '*') <<< 2) ||| (hexValBits (ds.getD 9 '*') >>> 2)) := by
    rw [getD_append_right5 htake5len (by norm_num), hE]
    rfl
  have hcs8 : (List.take 5 ds ++ E).getD 8 '*' = base64Key (((hexValBits (ds.getD 9 '*') &&& 3) <<< 4) ||| hexValBits (ds.getD 10 '*')) := by
    rw [getD_append_right5 htake5len (by norm_num), hE]
    rfl
  have hcs9 : (List.take 5 ds ++ E).getD 9 '*' = base64Key ((hexValBits (ds.getD 11 '*') <<< 2) ||| (hexValBits (ds.getD 12 '*') >>> 2)) := by
    rw [getD_append_right5 htake5len (by norm_num), hE]
    rfl
  have hcs10 : (List.take 5 ds ++ E).getD 10 '*' = base64Key (((hexValBits (ds.getD 12 '*') &&& 3) <<< 4) ||| hexValBits (ds.getD 13 '*')) := by
    rw [getD_append_right5 htake5len (by norm_num), hE]
    rfl
  have hcs11 : (List.take 5 ds ++ E).getD 11 '*' = base64Key ((hexValBits (ds.getD 14 '*') <<< 2) ||| (hexValBits (ds.getD 15 '*') >>> 2)) := by
    rw [getD_append_right5 htake5len (by norm_num), hE]
    rfl
  have hcs12 : (List.take 5 ds ++ E).getD 12 '*' = base64Key (((hexValBits (ds.getD 15 '*') &&& 3) <<< 4) ||| hexValBits (ds.getD 16 '*')) := by
    rw [getD_append_right5 htake5len (by norm_num), hE]
    rfl
  have hcs13 : (List.take 5 ds ++ E).getD 13 '*' = base64Key ((hexValBits (ds.getD 17 '*') <<< 2) ||| (hexValBits (ds.getD 18 '*') >>> 2)) := by
    rw [getD_append_right5 htake5len (by norm_num), hE]
    rfl
  have hcs14 : (List.take 5 ds ++ E).getD 14 '*' = base64Key (((hexValBits (ds.getD 18 '*') &&& 3) <<< 4) ||| hexValBits (ds.getD 19 '*')) := by
    rw [getD_append_right5 htake5len (by norm_num), hE]
    rfl
  have hcs15 : (List.take 5 ds ++ E).getD 15 '*' = base64Key ((hexValBits (ds.getD 20 '*') <<< 2) ||| (hexValBits (ds.getD 21 '*') >>> 2)) := by
    rw [getD_append_right5 htake5len (by norm_num), hE]
    rfl
  have hcs16 : (List.take 5 ds ++ E).getD 16 '*' = base64Key (((hexValBits (ds.getD 21 '*') &&& 3) <<< 4) ||| hexValBits (ds.getD 22 '*')) := by
    rw [getD_append_right5 htake5len (by norm_num), hE]
    rfl
  have hcs17 : (List.take 5 ds ++ E).getD 17 '*' = base64Key ((hexValBits (ds.getD 23 '*') <<< 2) ||| (hexValBits (ds.getD 24 '*') >>> 2)) := by
    rw [getD_append_right5 htake5len (by norm_num), hE]
    rfl
  have hcs18 : (List.take 5 ds ++ E).getD 18 '*' = base64Key (((hexValBits (ds.getD 24 '*') &&& 3) <<< 4) ||| hexValBits (ds.getD 25 '*')) := by
    rw [getD_append_right5 htake5len (by norm_num), hE]
    rfl
  have hcs19 : (List.take 5 ds ++ E).getD 19 '*' = base64Key ((hexValBits (ds.getD 26 '*') <<< 2) ||| (hexValBits (ds.getD 27 '*') >>> 2)) := by
    rw [getD_append_right5 htake5len (by norm_num), hE]
    rfl
  have hcs20 : (List.take 5 ds ++ E).getD 20 '*' = base64Key (((hexValBits (ds.getD 27 '*') &&& 3) <<< 4) ||| hexValBits (ds.getD 28 '*')) := by
    rw [getD_append_right5 htake5len (by norm_num), hE]
    rfl
  have hcs21 : (List.take 5 ds ++ E).getD 21 '*' = base64Key ((hexValBits (ds.getD 29 '*') <<< 2) ||| (hexValBits (ds.getD 30 '*') >>> 2)) := by
    rw [getD_append_right5 htake5len (by norm_num), hE]
    rfl
  have hcs22 : (List.take 5 ds ++ E).getD 22 '*' = base64Key (((hexValBits (ds.getD 30 '*') &&& 3) <<< 4) ||| hexValBits (ds.getD 31 '*')) := by
    rw [getD_append_right5 htake5len (by norm_num), hE]
    rfl
  have hm : ∀ j : Nat, j < 32 → ds.getD j '*' ∈ lowerHexChars := by
    intro j hj
    exact hmem _ (mem_getD '*' (by omega))
  have hcslen : (List.take 5 ds ++ E).length = 23 := by
    rw [hE] at hEdef ⊢
    simp [List.length_append, htake5len]
  rw [henc, decodeUuid]
  rw [show (String.mk (ds.take 5 ++ E)).toList = ds.take 5 ++ E from rfl]
  rw [if_pos hcslen]
  rw [List.take_left' htake5len]
  rw [decodeUnpackFrom]
  rw [show List.range' 5 ((23 - 5 + 1) / 2) 2 = [5, 7, 9, 11, 13, 15, 17, 19, 21] from rfl]
  simp only [List.foldr]
  rw [hcs5, hcs6, hcs7, hcs8, hcs9, hcs10, hcs11, hcs12, hcs13, hcs14, hcs15, hcs16, hcs17, hcs18, hcs19, hcs20, hcs21, hcs22]
  rw [tripleRT (hm 5 (by omega)) (hm 6 (by omega)) (hm 7 (by omega)), tripleRT (hm 8 (by omega)) (hm 9 (by omega)) (hm 10 (by omega)), tripleRT (hm 11 (by omega)) (hm 12 (by omega)) (hm 13 (by omega)), tripleRT (hm 14 (by omega)) (hm 15 (by omega)) (hm 16 (by omega)), tripleRT (hm 17 (by omega)) (hm 18 (by omega)) (hm 19 (by omega)), tripleRT (hm 20 (by omega)) (hm 21 (by omega)) (hm 22 (by omega)), tripleRT (hm 23 (by omega)) (hm 24 (by omega)) (hm 25 (by omega)), tripleRT (hm 26 (by omega)) (hm 27 (by omega)) (hm 28 (by omega)), tripleRT (hm 29 (by omega)) (hm 30 (by omega)) (hm 31 (by omega))]
  simp only [List.cons_append, List.nil_append, List.append_nil]
  rw [show ds.getD 5 '*' :: ds.getD 6 '*' :: ds.getD 7 '*' :: ds.getD 8 '*' :: ds.getD 9 '*' ::
      ds.getD 10 '*' :: ds.getD 11 '*' :: ds.getD 12 '*' :: ds.getD 13 '*' :: ds.getD 14 '*' ::
      ds.getD 15 '*' :: ds.getD 16 '*' :: ds.getD 17 '*' :: ds.getD 18 '*' :: ds.getD 19 '*' ::
      ds.getD 20 '*' :: ds.getD 21 '*' :: ds.getD 22 '*' :: ds.getD 23 '*' :: ds.getD 24 '*' ::
      ds.getD 25 '*' :: ds.getD 26 '*' :: ds.getD 27 '*' :: ds.getD 28 '*' :: ds.getD 29 '*' ::
      ds.getD 30 '*' :: ds.getD 31 '*' :: [] = ds.drop 5 from by
    rw [drop_expand (l := ds) (k := 5) (by omega) '*', drop_expand (l := ds) (k := 6) (by omega) '*', drop_expand (l := ds) (k := 7) (by omega) '*', drop_expand (l := ds) (k := 8) (by omega) '*', drop_expand (l := ds) (k := 9) (by omega) '*', drop_expand (l := ds) (k := 10) (by omega) '*', drop_expand (l := ds) (k := 11) (by omega) '*', drop_expand (l := ds) (k := 12) (by omega) '*', drop_expand (l := ds) (k := 13) (by omega) '*', drop_expand (l := ds) (k := 14) (by omega) '*', drop_expand (l := ds) (k := 15) (by omega) '*', drop_expand (l := ds) (k := 16) (by omega) '*', drop_expand (l := ds) (k := 17) (by omega) '*', drop_expand (l := ds) (k := 18) (by omega) '*', drop_expand (l := ds) (k := 19) (by omega) '*', drop_expand (l := ds) (k := 20) (by omega) '*', drop_expand (l := ds) (k := 21) (by omega) '*', drop_expand (l := ds) (k := 22) (by omega) '*', drop_expand (l := ds) (k := 23) (by omega) '*', drop_expand (l := ds) (k := 24) (by omega) '*', drop_expand (l := ds) (k := 25) (by omega) '*', drop_expand (l := ds) (k := 26) (by omega) '*', drop_expand (l := ds) (k := 27) (by omega) '*', drop_expand (l := ds) (k := 28) (by omega) '*', drop_expand (l := ds) (k := 29) (by omega) '*', drop_expand (l := ds) (k := 30) (by omega) '*', drop_expand (l := ds) (k := 31) (by omega) '*']
    rw [show ds.drop (31 + 1) = [] from by
      rw [show (31 + 1 : Nat) = ds.length from by omega]
      exact List.drop_length ds]]
  rw [List.take_append_drop 5 ds]

/-- A hexadecimal digit in either case (the claim's "32 hexadecimal digits"). -/
def isHexDigitChar (c : Char) : Bool :=
  ('0' ≤ c && c ≤ '9') || ('a' ≤ c && c ≤ 'f') || ('A' ≤ c && c ≤ 'F')

/-- The claim's "syntactically valid 36-character long identifier": 32
hexadecimal digits grouped 8-4-4-4-12 with hyphens. -/
def isCanonicalLongUuid (s : String) : Bool :=
  s.length == 36 &&
  (List.range 36).all (fun i =>
    if i = 8 ∨ i = 13 ∨ i = 18 ∨ i = 23 then s.toList.getD i ' ' == '-'
    else isHexDigitChar (s.toList.getD i ' '))

/-- A canonical long identifier whose hexadecimal digits are all lowercase —
the domain on which the round-trip actually holds. -/
def IsLowerHexUuid (s : String) : Prop :=
  ∃ ds : List Char, ds.length = 32 ∧ (∀ c ∈ ds, c ∈ lowerHexChars) ∧ s = uuidHyphenate ds

/-- C4, counterexample: the claim quantifies over every syntactically valid
36-character identifier, but `encodeUuid` lowercases its input and
`decodeUuid` emits lowercase hex, so a valid identifier containing uppercase
hexadecimal digits does not round-trip. -/
theorem c4_uuid_roundtrip_counterexample : isCanonicalLongUuid "E9EC654C-97A2-4787-9325-E6A10375219A" = true ∧
    decodeUuid (encodeUuid "E9EC654C-97A2-4787-9325-E6A10375219A" false) ≠
      "E9EC654C-97A2-4787-9325-E6A10375219A" := by decide

/-- C4, amended: for every syntactically valid 36-character long identifier
whose hexadecimal digits are lowercase, `decodeUuid (encodeUuid id)` returns
`id` (`encodeUuid` is a pure function of its argument in this embedding, so
determinism is by construction); and `encodeUuid` of the spec's example is a
23-character string whose first 5 characters are "e9ec6", with `decodeUuid`
of that result giving back the example identifier. -/
theorem c4_uuid_roundtrip_amended : (∀ s : String, IsLowerHexUuid s → decodeUuid (encodeUuid s false) = s) ∧
    (encodeUuid "e9ec654c-97a2-4787-9325-e6a10375219a" false).length = 23 ∧
    ((encodeUuid "e9ec654c-97a2-4787-9325-e6a10375219a" false).take 5 = "e9ec6") ∧
    decodeUuid (encodeUuid "e9ec654c-97a2-4787-9325-e6a10375219a" false) =
      "e9ec654c-97a2-4787-9325-e6a10375219a" := by
  refine ⟨?_, by decide, by decide, by decide⟩
  rintro s ⟨ds, h1, h2, rfl⟩
  exact uuidRoundtrip ds h1 h2

/-- Witness for C4: the amended round-trip applied to the spec's example
identifier. -/
theorem c4_uuid_roundtrip_witness : decodeUuid (encodeUuid "e9ec654c-97a2-4787-9325-e6a10375219a" false) =
    "e9ec654c-97a2-4787-9325-e6a10375219a" :=
  c4_uuid_roundtrip_amended.1 _ ⟨['e','9','e','c','6','5','4','c','9','7','a','2','4','7','8','7',
            '9','3','2','5','e','6','a','1','0','3','7','5','2','1','9','a'],
    by decide, by decide, by decide⟩

/-! ## C1: the compaction invariant

`refIds` collects exactly the values that sit at the rewriting sites of
`updateReferences` — every `__id__` property of every object, without
descending into the `__id__` value itself. -/

mutual

/-- All `__id__` property values reachable in a value (the reference slots
`updateReferences` rewrites). -/
def refIds : JVal → List JVal
  | .arr xs => refIdsList xs
  | .obj fs => refIdsFields fs
  | _ => []

/-- Reference slots of array elements. -/
def refIdsList : List JVal → List JVal
  | [] => []
  | x :: xs => refIds x ++ refIdsList xs

/-- Reference slots of object properties. -/
def refIdsFields : List (String × JVal) → List JVal
  | [] => []
  | (k, v) :: fs => (if k = "__id__" then [v] else refIds v) ++ refIdsFields fs

end

mutual

/-- Reference slots after `updateReferences` are the original slots mapped
through the `__id__` rewrite. -/
theorem refIds_updateRefs : ∀ (m : Int → Option Int) (v : JVal),
    refIds (updateRefs m v) = (refIds v).map (rewriteId m)
  | m, .null => rfl
  | m, .bool b => rfl
  | m, .num n => rfl
  | m, .str s => rfl
  | m, .arr xs => by
    simp only [updateRefs, refIds]
    exact refIdsList_updateRefs m xs
  | m, .obj fs => by
    simp only [updateRefs, refIds]
    exact refIdsFields_updateRefs m fs

theorem refIdsList_updateRefs : ∀ (m : Int → Option Int) (xs : List JVal),
    refIdsList (updateRefsList m xs) = (refIdsList xs).map (rewriteId m)
  | m, [] => rfl
  | m, x :: xs => by
    simp only [updateRefsList, refIdsList, List.map_append]
    rw [refIds_updateRefs m x, refIdsList_updateRefs m xs]

theorem refIdsFields_updateRefs : ∀ (m : Int → Option Int) (fs : List (String × JVal)),
    refIdsFields (updateRefsFields m fs) = (refIdsFields fs).map (rewriteId m)
  | m, [] => rfl
  | m, (k, v) :: fs => by
    simp only [updateRefsFields, refIdsFields, List.map_append]
    rw [refIdsFields_updateRefs m fs]
    by_cases hk : k = "__id__"
    · simp [hk]
    · simp [hk, refIds_updateRefs m v]

end

/-- A live slot's new index is below the live-record count. -/
theorem rankFrom_lt : ∀ (data : List JVal) (i r : Nat), rankFrom data i = some r →
    r < (data.filter (fun x => !isTombstone x)).length := by
  intro data
  induction data with
  | nil => intro i r h; simp [rankFrom] at h
  | cons x xs ih =>
    intro i r h
    cases i with
    | zero =>
      simp only [rankFrom] at h
      by_cases hx : isTombstone x
      · simp [hx] at h
      · simp [hx] at h
        simp [List.filter_cons, hx, ← h]
    | succ n =>
      simp only [rankFrom, Option.map_eq_some'] at h
      obtain ⟨r', hr', hr⟩ := h
      have := ih n r' hr'
      by_cases hx : isTombstone x
      · simp [hx] at hr
        simp [List.filter_cons, hx]
        omega
      · simp [hx] at hr
        simp [List.filter_cons, hx]
        omega

/-- The old → new map is defined exactly on live, in-range slots. -/
theorem rankFrom_isSome : ∀ (data : List JVal) (i : Nat),
    (rankFrom data i).isSome ↔ ∃ h : i < data.length, ¬ isTombstone (data.get ⟨i, h⟩) := by
  intro data
  induction data with
  | nil => intro i; simp [rankFrom]
  | cons x xs ih =>
    intro i
    cases i with
    | zero =>
      simp only [rankFrom]
      by_cases hx : isTombstone x <;> simp [hx]
    | succ n =>
      simp only [rankFrom]
      rw [show ∀ (o : Option Nat) (f : Nat → Nat), (o.map f).isSome = o.isSome from
        fun o f => by cases o <;> rfl]
      rw [ih n]
      constructor
      · rintro ⟨h, hlive⟩
        refine ⟨by simp only [List.length_cons]; omega, ?_⟩
        simpa using hlive
      · rintro ⟨h, hlive⟩
        refine ⟨by simp only [List.length_cons] at h; omega, ?_⟩
        simpa using hlive

/-- C1, amended: for every flat record array, `compactAndReindexPrefab`
returns exactly the live (non-null, non-undefined) records, in their
original relative order, each with every reachable `__id__` reference
rewritten through the old → new index map; the map is defined exactly on
live in-range slots and always lands in `[0, N)` where `N` is the live
count.  (A reference whose old target was a tombstone or out of range is
left unchanged by `rewriteId` — the logged dangling-reference case — which
is what the counterexample exhibits against the claim as stated.) -/
theorem c1_compaction_amended (data : List JVal) :
    (compactAndReindexPrefab data).length = (data.filter (fun x => !isTombstone x)).length ∧
    compactAndReindexPrefab data =
      (data.filter (fun x => !isTombstone x)).map (updateRefs (oldToNewIdMap data)) ∧
    (∀ v : JVal, refIds (updateRefs (oldToNewIdMap data) v) =
      (refIds v).map (rewriteId (oldToNewIdMap data))) ∧
    (∀ i : Int, (oldToNewIdMap data i).isSome ↔
      ∃ h : 0 ≤ i ∧ i.toNat < data.length, ¬ isTombstone (data.get ⟨i.toNat, h.2⟩)) ∧
    (∀ i r : Int, oldToNewIdMap data i = some r →
      0 ≤ r ∧ r < ((data.filter (fun x => !isTombstone x)).length : Int)) := by
  refine ⟨by simp [compactAndReindexPrefab], rfl, fun v => refIds_updateRefs _ v, ?_, ?_⟩
  · intro i
    rw [oldToNewIdMap]
    by_cases hi : i < 0
    · rw [if_pos hi]
      simp only [Option.isSome_none, Bool.false_eq_true, false_iff]
      rintro ⟨⟨h0, h⟩, -⟩
      omega
    · rw [if_neg hi]
      rw [show ∀ (o : Option Nat) (f : Nat → Int), (o.map f).isSome = o.isSome from
        fun o f => by cases o <;> rfl]
      rw [rankFrom_isSome]
      constructor
      · rintro ⟨h, hlive⟩
        exact ⟨⟨by omega, h⟩, hlive⟩
      · rintro ⟨⟨h0, h⟩, hlive⟩
        exact ⟨h, hlive⟩
  · intro i r h
    rw [oldToNewIdMap] at h
    by_cases hi : i < 0
    · simp [hi] at h
    · simp only [hi, if_false, Option.map_eq_some'] at h
      obtain ⟨r', hr', rfl⟩ := h
      have hlt := rankFrom_lt data i.toNat r' hr'
      exact ⟨Int.ofNat_nonneg r', Int.ofNat_lt.mpr hlt⟩

/-- C1, counterexample: a graph with one live record holding a reference to
a tombstoned slot.  After compaction the result has `N = 1` records but the
dangling reference still carries index 1, outside `[0, 1)` — the claim's
"every reachable `__id__` reference carries a valid index in `[0, N)`" is
false as stated. -/
theorem c1_compaction_counterexample :
    (([JVal.obj [("__type__", .str "x"), ("r", .obj [("__id__", .num 1)])],
       JVal.null] : List JVal).filter (fun x => !isTombstone x)).length = 1 ∧
    ¬ ((compactAndReindexPrefab
          [JVal.obj [("__type__", .str "x"), ("r", .obj [("__id__", .num 1)])], JVal.null]).all
        (fun r0 => (refIds r0).all (fun v =>
          match v with
          | .num n => decide (0 ≤ n ∧ n < 1)
          | _ => true)) = true) := by decide

/-- Witness for C1: the range bound applied at a concrete two-slot array
whose slot 0 is live. -/
theorem c1_compaction_witness : (0 : Int) ≤ 0 ∧ (0 : Int) <
    ((([JVal.obj [], JVal.null] : List JVal).filter (fun x => !isTombstone x)).length : Int) :=
  (c1_compaction_amended [JVal.obj [], JVal.null]).2.2.2.2 0 0 (by decide)

/-! ## C7 / C9: tree-projection failure modes -/

/-- `find?` returns the head of the filtered list (the "first encountered in
array order" tie-break). -/
theorem find_eq_head_filter {α : Type} (p : α → Bool) (l : List α) :
    l.find? p = (l.filter p).head? := by
  induction l with
  | nil => rfl
  | cons x xs ih =>
    by_cases hx : p x
    · rw [List.find?_cons_of_pos _ hx, List.filter_cons_of_pos hx]
      rfl
    · rw [List.find?_cons_of_neg _ hx, List.filter_cons_of_neg hx, ih]

/-- Two parentless `cc.Node` records: an ambiguous-root example. -/
def exC7root0 : JVal := .obj [("__type__", .str "cc.Node"), ("_name", .str "A")]

/-- Second parentless node of the ambiguous-root example. -/
def exC7root1 : JVal := .obj [("__type__", .str "cc.Node"), ("_name", .str "B")]

set_option maxRecDepth 4096 in
/-- C7: `CocosPrefabParser.parse` fails with `MalformedGraph` exactly when
the input is not an array; on an array it fails with `RootNotFound` exactly
when every node record has a resolvable parent reference (a truthy
`_parent` carrying a defined `__id__`); the root used is the first
qualifying node in array order (`findRootNode` is the head of the
array-ordered qualifying nodes, and `parse`'s result is the tree built from
it).  Cyclic graphs fail with the distinct stack-overflow error, which
falsifies neither "exactly when". -/
theorem c7_parse_errors (d : JVal) :
    ((CocosPrefabParser.parse d = .error .malformedGraph) ↔ d.isArr = false) ∧
    (∀ data : List JVal, d = .arr data →
      ((CocosPrefabParser.parse d = .error .rootNotFound) ↔
        ∀ e ∈ nodeMapOf data, hasResolvableParent e.2 = true) ∧
      (findRootNode data =
        ((nodeMapOf data).filter (fun e => !hasResolvableParent e.2)).head?) ∧
      (∀ (i : Nat) (node : JVal), findRootNode data = some (i, node) →
        CocosPrefabParser.parse d =
          (match buildNodeTree data i node with
           | some t => .ok t
           | none => .error .stackOverflow))) := by
  constructor
  · cases d
    case arr data =>
      simp only [JVal.isArr]
      constructor
      · intro h
        exfalso
        simp only [CocosPrefabParser.parse] at h
        cases hr : findRootNode data
        · rw [hr] at h
          exact absurd h (by simp)
        · case some e =>
          rw [hr] at h
          cases hb : buildNodeTree data e.1 e.2 <;> simp [hb] at h
      · intro h
        exact absurd h (by simp)
    all_goals exact ⟨fun _ => rfl, fun _ => rfl⟩
  · rintro data rfl
    refine ⟨?_, ?_, ?_⟩
    · rw [show (CocosPrefabParser.parse (.arr data) = .error .rootNotFound) ↔
          findRootNode data = none from ?_]
      · rw [findRootNode, List.find?_eq_none]
        constructor
        · intro h e he
          have := h e he
          simpa using this
        · intro h e he
          simp [h e he]
      · simp only [CocosPrefabParser.parse]
        cases hr : findRootNode data
        · simp
        · case some e =>
          cases hb : buildNodeTree data e.1 e.2 <;> simp [hb]
    · rw [findRootNode, find_eq_head_filter]
    · intro i node hr
      simp only [CocosPrefabParser.parse, hr]

/-- Witness for C7: on an array with two qualifying roots, parse uses the
one at index 0. -/
theorem c7_parse_errors_witness :
    CocosPrefabParser.parse (.arr [exC7root0, exC7root1]) =
      (match buildNodeTree [exC7root0, exC7root1] 0 exC7root0 with
       | some t => .ok t
       | none => .error .stackOverflow) :=
  ((c7_parse_errors (.arr [exC7root0, exC7root1])).2 [exC7root0, exC7root1] rfl).2.2 0 exC7root0
    (by decide)

/-- C9: `parsePrefab` never throws — every erroring `parse` input yields
`null` (`none`), and every successful input yields the projected tree. -/
theorem c9_parsePrefab_total (d : JVal) :
    ((∃ e : ParseErr, CocosPrefabParser.parse d = .error e) → parsePrefab d = none) ∧
    (∀ t : JVal, CocosPrefabParser.parse d = .ok t → parsePrefab d = some t) := by
  constructor
  · rintro ⟨e, he⟩
    simp [parsePrefab, he]
  · intro t ht
    simp [parsePrefab, ht]

/-- Witness for C9: a non-array input is answered with `none`. -/
theorem c9_parsePrefab_total_witness : parsePrefab (JVal.num 0) = none :=
  (c9_parsePrefab_total (JVal.num 0)).1 ⟨.malformedGraph, rfl⟩

/-! ## C6: duplicate sibling names -/

/-- Reading back the key just assigned. -/
theorem assocFind_assocSet_self {β : Type} (l : List (String × β)) (k : String) (v : β) :
    assocFind (assocSet l k v) k = some v := by
  induction l with
  | nil => simp [assocSet, assocFind]
  | cons e rest ih =>
    obtain ⟨k', v'⟩ := e
    by_cases hk : k' = k
    · simp [assocSet, assocFind, hk]
    · simp [assocSet, assocFind, hk, ih]

/-- Assigning one key leaves the others unchanged. -/
theorem assocFind_assocSet_other {β : Type} (l : List (String × β)) {k' k : String}
    (h : k' ≠ k) (v : β) : assocFind (assocSet l k' v) k = assocFind l k := by
  induction l with
  | nil => simp [assocSet, assocFind, h]
  | cons e rest ih =>
    obtain ⟨k1, v1⟩ := e
    by_cases hk : k1 = k'
    · simp [assocSet, assocFind, hk, h]
    · simp only [assocSet, if_neg hk, assocFind]
      by_cases hk2 : k1 = k
      · simp [hk2]
      · simp [hk2, ih]

/-- A run of the `_children` loop over references none of which binds `name`
leaves the `name` binding of the accumulator object untouched. -/
theorem parseChildren_not_bound (pn : Int → JVal → Option JVal) (data : List JVal)
    (name : String) :
    ∀ (l : List JVal) (acc m : List (String × JVal)),
      (∀ r ∈ l, ∀ (n' : Int) (cn' : JVal), childBindingOf data r ≠ some (name, n', cn')) →
      parseChildren pn data l acc = some m →
      assocFind m name = assocFind acc name := by
  intro l
  induction l with
  | nil =>
    intro acc m _ hm
    simp only [parseChildren] at hm
    cases hm
    rfl
  | cons r rest ih =>
    intro acc m hno hm
    simp only [parseChildren] at hm
    cases hb : childBindingOf data r with
    | none =>
      simp only [hb] at hm
      exact ih acc m (fun r' hr' => hno r' (List.mem_cons_of_mem _ hr')) hm
    | some b =>
      obtain ⟨nm, n', cn'⟩ := b
      simp only [hb] at hm
      cases hp : pn n' cn' with
      | none => rw [hp] at hm; cases hm
      | some parsed =>
        rw [hp] at hm
        have hname : nm ≠ name := by
          intro hEq
          exact hno r (List.mem_cons_self r rest) n' cn' (hEq ▸ hb)
        rw [ih _ m (fun r' hr' => hno r' (List.mem_cons_of_mem _ hr')) hm]
        exact assocFind_assocSet_other _ hname _

/-- C6, amended: the children mapping binds a display name to the *last*
eligible child reference carrying that name, in child-reference-list order
(JavaScript object assignment overwrites the earlier sibling), not the
first as claimed. -/
theorem c6_duplicate_children_amended (pn : Int → JVal → Option JVal) (data : List JVal)
    (l1 l2 : List JVal) (ref : JVal) (acc m : List (String × JVal))
    (name : String) (n : Int) (childNode parsed : JVal) :
    childBindingOf data ref = some (name, n, childNode) →
    pn n childNode = some parsed →
    (∀ r ∈ l2, ∀ (n' : Int) (cn' : JVal), childBindingOf data r ≠ some (name, n', cn')) →
    parseChildren pn data (l1 ++ ref :: l2) acc = some m →
    assocFind m name = some parsed := by
  intro href hpn hno
  induction l1 generalizing acc with
  | nil =>
    intro hm
    simp only [List.nil_append, parseChildren, href, hpn] at hm
    rw [parseChildren_not_bound pn data name l2 _ m hno hm]
    exact assocFind_assocSet_self _ _ _
  | cons r rest ih =>
    intro hm
    simp only [List.cons_append, parseChildren] at hm
    cases hb : childBindingOf data r with
    | none =>
      simp only [hb] at hm
      exact ih _ hm
    | some b =>
      obtain ⟨nm, n', cn'⟩ := b
      simp only [hb] at hm
      cases hp : pn n' cn' with
      | none => rw [hp] at hm; cases hm
      | some parsed' =>
        rw [hp] at hm
        exact ih _ hm

/-- A root with two children both named "A" (slots 1 and 2). -/
def exC6data : List JVal :=
  [.obj [("__type__", .str "cc.Node"), ("_name", .str "R"),
         ("_children", .arr [.obj [("__id__", .num 1)], .obj [("__id__", .num 2)]])],
   .obj [("__type__", .str "cc.Node"), ("_name", .str "A"),
         ("_parent", .obj [("__id__", .num 0)])],
   .obj [("__type__", .str "cc.Node"), ("_name", .str "A"),
         ("_parent", .obj [("__id__", .num 0)])]]

/-- C6, counterexample: with two siblings named "A" (slots 1 and 2, in that
reference order), both the tree's children mapping and the path map entry
"R/A" hold the node with `__nodeId__ = 2` — the second occurrence — so the
claimed first-occurrence binding is false. -/
theorem c6_duplicate_children_counterexample :
    ((parsePrefab (.arr exC6data)).map (fun tree =>
        (((getField tree "R").bind (fun r => getField r "children")).bind
          (fun cs => getField cs "A")).map (fun nd => getIntField nd "__nodeId__")) =
      some (some 2)) ∧
    ¬ ((parsePrefab (.arr exC6data)).map (fun tree =>
        (((getField tree "R").bind (fun r => getField r "children")).bind
          (fun cs => getField cs "A")).map (fun nd => getIntField nd "__nodeId__")) =
      some (some 1)) ∧
    ((parsePrefab (.arr exC6data)).map (fun tree =>
        (assocFind (buildPathMap tree) "R/A").map (fun nd => getIntField nd "__nodeId__")) =
      some (some 2)) ∧
    ¬ ((parsePrefab (.arr exC6data)).map (fun tree =>
        (assocFind (buildPathMap tree) "R/A").map (fun nd => getIntField nd "__nodeId__")) =
      some (some 1)) := by decide

/-- The recursive parse call used by the C6 witness. -/
def c6pn : Int → JVal → Option JVal := fun n cn => parseNode exC6data 3 n cn

/-- The child-reference list of the C6 witness. -/
def c6refs : List JVal := [.obj [("__id__", .num 1)], .obj [("__id__", .num 2)]]

/-- The children object the C6 witness inspects. -/
def c6m : List (String × JVal) := (parseChildren c6pn exC6data c6refs []).getD []

/-- The parse of the second "A" sibling. -/
def c6parsed : JVal := (c6pn 2 (exC6data.getD 2 .null)).getD .null

/-- Witness for C6: in the two-sibling example the children object binds
"A" to the parse of slot 2. -/
theorem c6_duplicate_children_witness : assocFind c6m "A" = some c6parsed :=
  c6_duplicate_children_amended c6pn exC6data [.obj [("__id__", .num 1)]] [] (.obj [("__id__", .num 2)]) [] c6m
    "A" 2 (exC6data.getD 2 .null) c6parsed (by decide) (by decide)
    (by simp) (by decide)

/-! ## C5: global substitution ordering -/

/-- Membership in a stable insertion. -/
theorem mem_stableInsert {α : Type} (le : α → α → Bool) (x z : α) :
    ∀ l : List α, z ∈ stableInsert le x l ↔ z = x ∨ z ∈ l := by
  intro l
  induction l with
  | nil => simp [stableInsert]
  | cons y ys ih =>
    simp only [stableInsert]
    by_cases hyx : le y x
    · rw [if_pos hyx]
      simp only [List.mem_cons, ih]
      tauto
    · rw [if_neg hyx]
      simp only [List.mem_cons]

/-- Stable insertion preserves sortedness for a total, transitive order. -/
theorem pairwise_stableInsert {α : Type} (le : α → α → Bool)
    (total : ∀ a b, le a b = true ∨ le b a = true)
    (trans : ∀ a b c, le a b = true → le b c = true → le a c = true)
    (x : α) :
    ∀ l : List α, l.Pairwise (fun a b => le a b = true) →
      (stableInsert le x l).Pairwise (fun a b => le a b = true) := by
  intro l
  induction l with
  | nil => intro _; simp [stableInsert]
  | cons y ys ih =>
    intro h
    rw [List.pairwise_cons] at h
    obtain ⟨hy, hys⟩ := h
    simp only [stableInsert]
    by_cases hyx : le y x
    · rw [if_pos hyx]
      rw [List.pairwise_cons]
      refine ⟨?_, ih hys⟩
      intro z hz
      rcases (mem_stableInsert le x z ys).mp hz with rfl | hzys
      · exact hyx
      · exact hy z hzys
    · rw [if_neg hyx]
      have hxy : le x y = true := by
        rcases total x y with h' | h'
        · exact h'
        · exact absurd h' hyx
      rw [List.pairwise_cons]
      constructor
      · intro z hz
        rcases List.mem_cons.mp hz with rfl | hzys
        · exact hxy
        · exact trans _ _ _ hxy (hy z hzys)
      · rw [List.pairwise_cons]
        exact ⟨hy, hys⟩

/-- `jsSort` output is sorted (pairwise in the comparator's order). -/
theorem pairwise_jsSort {α : Type} (le : α → α → Bool)
    (total : ∀ a b, le a b = true ∨ le b a = true)
    (trans : ∀ a b c, le a b = true → le b c = true → le a c = true)
    (l : List α) : (jsSort le l).Pairwise (fun a b => le a b = true) := by
  suffices h : ∀ acc : List α, acc.Pairwise (fun a b => le a b = true) →
      (l.foldl (fun a x => stableInsert le x a) acc).Pairwise (fun a b => le a b = true) by
    exact h [] (by simp)
  induction l with
  | nil => intro acc hacc; exact hacc
  | cons x xs ih =>
    intro acc hacc
    exact ih _ (pairwise_stableInsert le total trans x acc hacc)

/-- Stable insertion is a permutation of consing. -/
theorem stableInsert_perm {α : Type} (le : α → α → Bool) (x : α) :
    ∀ l : List α, (stableInsert le x l).Perm (x :: l) := by
  intro l
  induction l with
  | nil => simp [stableInsert]
  | cons y ys ih =>
    simp only [stableInsert]
    by_cases hyx : le y x
    · rw [if_pos hyx]
      exact (ih.cons y).trans (List.Perm.swap x y ys)
    · rw [if_neg hyx]

/-- `jsSort` permutes its input. -/
theorem jsSort_perm {α : Type} (le : α → α → Bool) (l : List α) :
    (jsSort le l).Perm l := by
  suffices h : ∀ acc : List α, (l.foldl (fun a x => stableInsert le x a) acc).Perm (acc ++ l) by
    simpa using h []
  induction l with
  | nil => intro acc; simp
  | cons x xs ih =>
    intro acc
    exact (ih (stableInsert le x acc)).trans
      (((stableInsert_perm le x acc).append_right xs).trans List.perm_middle.symm)

/-- Is a substitution instruction variant-qualified (its `from` contains
`@`)?  Non-substitution records count as unqualified. -/
def hasAtInstr : Instruction → Bool
  | .REPLACE_STRING_GLOBAL f _ => f.toList.contains '@'
  | _ => false

/-- C5, counterexample: the fixed fallback pair `("@f9941", "@6c48a")` is
appended *after* the sorted mapping-derived pairs, so with any unqualified
mapping entry the full precomputed list has a variant-qualified pair after
an unqualified one — "every variant-qualified pair ordered before every
unqualified pair" is false of the generated instruction list as stated. -/
theorem c5_substitution_order_counterexample :
    generateGlobalStringReplaceInstructions [("abc", "xyz")] =
      [.REPLACE_STRING_GLOBAL "abc" "xyz", .REPLACE_STRING_GLOBAL "@f9941" "@6c48a"] ∧
    hasAtInstr (.REPLACE_STRING_GLOBAL "abc" "xyz") = false ∧
    hasAtInstr (.REPLACE_STRING_GLOBAL "@f9941" "@6c48a") = true ∧
    ¬ (List.Pairwise (fun a b => hasAtInstr b = true → hasAtInstr a = true)
        (generateGlobalStringReplaceInstructions [("abc", "xyz")])) := by
  refine ⟨by decide, by decide, by decide, ?_⟩
  intro h
  rw [show generateGlobalStringReplaceInstructions [("abc", "xyz")] =
      [.REPLACE_STRING_GLOBAL "abc" "xyz", .REPLACE_STRING_GLOBAL "@f9941" "@6c48a"]
    from by decide] at h
  have := (List.pairwise_cons.mp h).1 (.REPLACE_STRING_GLOBAL "@f9941" "@6c48a") (by simp)
  exact absurd (this (by decide)) (by decide)

/-- C5, amended: the generated list is the mapping-derived pairs, stably
sorted so that among them every variant-qualified pair precedes every
unqualified pair (pairwise), followed by the fixed fallback pair; the
applier consumes instructions strictly in list order (one fold step per
instruction); and on the spec's scenario — substitution pairs
`("abc@v1","xyz@v2")` and `("abc","xyz")` in either original order — the
graph string `"assets/abc@v1/tex.png"` becomes `"assets/xyz@v2/tex.png"`. -/
theorem c5_substitution_order_amended :
    (∀ mapping : List (String × String),
      generateGlobalStringReplaceInstructions mapping =
        jsSort (fun a b => atSortKey a ≤ atSortKey b)
          (mapping.map (fun kv => Instruction.REPLACE_STRING_GLOBAL kv.1 kv.2)) ++
        [.REPLACE_STRING_GLOBAL "@f9941" "@6c48a"] ∧
      List.Pairwise (fun a b => hasAtInstr b = true → hasAtInstr a = true)
        (jsSort (fun a b => atSortKey a ≤ atSortKey b)
          (mapping.map (fun kv => Instruction.REPLACE_STRING_GLOBAL kv.1 kv.2))) ∧
      (jsSort (fun a b => atSortKey a ≤ atSortKey b)
          (mapping.map (fun kv => Instruction.REPLACE_STRING_GLOBAL kv.1 kv.2))).Perm
        (mapping.map (fun kv => Instruction.REPLACE_STRING_GLOBAL kv.1 kv.2))) ∧
    (∀ (data : List JVal) (f t : String) (rest : List Instruction),
      applyStringReplaceInstructions data (.REPLACE_STRING_GLOBAL f t :: rest) =
        applyStringReplaceInstructions (data.map (fun item => traverseReplace f t item)) rest) ∧
    (applyStringReplaceInstructions [.obj [("path", .str "assets/abc@v1/tex.png")]]
        (generateGlobalStringReplaceInstructions [("abc@v1", "xyz@v2"), ("abc", "xyz")]) =
      [.obj [("path", .str "assets/xyz@v2/tex.png")]]) ∧
    (applyStringReplaceInstructions [.obj [("path", .str "assets/abc@v1/tex.png")]]
        (generateGlobalStringReplaceInstructions [("abc", "xyz"), ("abc@v1", "xyz@v2")]) =
      [.obj [("path", .str "assets/xyz@v2/tex.png")]]) := by
  refine ⟨?_, fun data f t rest => rfl, by decide, by decide⟩
  intro mapping
  refine ⟨rfl, ?_, jsSort_perm _ _⟩
  have hp := pairwise_jsSort (fun a b => decide (atSortKey a ≤ atSortKey b))
    (fun a b => by
      rcases Nat.le_total (atSortKey a) (atSortKey b) with h | h
      · left; simpa using h
      · right; simpa using h)
    (fun a b c hab hbc => by
      simp only [decide_eq_true_eq] at hab hbc ⊢
      omega)
    (mapping.map (fun kv => Instruction.REPLACE_STRING_GLOBAL kv.1 kv.2))
  refine hp.imp ?_
  intro a b hab hatb
  simp only [decide_eq_true_eq] at hab
  cases a with
  | REPLACE_STRING_GLOBAL fa ta =>
    cases b with
    | REPLACE_STRING_GLOBAL fb tb =>
      simp only [hasAtInstr] at hatb ⊢
      simp only [atSortKey, hatb, if_true] at hab
      by_cases hfa : fa.toList.contains '@'
      · exact hfa
      · simp [hfa] at hab
        simpa using hab
    | _ => simp [hasAtInstr] at hatb
  | _ =>
    cases b with
    | REPLACE_STRING_GLOBAL fb tb =>
      simp only [hasAtInstr] at hatb
      simp only [atSortKey, hatb, if_true] at hab
      omega
    | _ => simp [hasAtInstr] at hatb

/-- Drop from `l` the elements whose absolute position (starting at `k`)
occurs in `idxs`. -/
def dropPositionsFrom {α : Type} (idxs : List Nat) : List α → Nat → List α
  | [], _ => []
  | x :: xs, k =>
    if idxs.contains k then dropPositionsFrom idxs xs (k + 1)
    else x :: dropPositionsFrom idxs xs (k + 1)

/-- Drop from `l` the elements at the listed positions. -/
def dropPositions {α : Type} (l : List α) (idxs : List Nat) : List α :=
  dropPositionsFrom idxs l 0

theorem dropPositionsFrom_congr {α : Type} {idxs idxs' : List Nat}
    (h : ∀ k, idxs.contains k = idxs'.contains k) :
    ∀ (l : List α) (k : Nat), dropPositionsFrom idxs l k = dropPositionsFrom idxs' l k := by
  intro l
  induction l with
  | nil => intro k; rfl
  | cons x xs ih =>
    intro k
    simp only [dropPositionsFrom, h k, ih]

theorem dropPositionsFrom_none {α : Type} {idxs : List Nat} :
    ∀ (l : List α) (k : Nat), (∀ j ∈ idxs, j < k) → dropPositionsFrom idxs l k = l := by
  intro l
  induction l with
  | nil => intro k _; rfl
  | cons x xs ih =>
    intro k hk
    have hc : idxs.contains k = false := by
      rw [List.contains_eq_any_beq, List.any_eq_false]
      intro j hj
      have := hk j hj
      simp only [beq_iff_eq]
      omega
    simp only [dropPositionsFrom, hc, Bool.false_eq_true, if_false]
    rw [ih (k + 1) (fun j hj => Nat.lt_trans (hk j hj) (Nat.lt_succ_self k))]

theorem dropPositionsFrom_eraseIdx {α : Type} {rest : List Nat} {i : Nat}
    (hrest : ∀ j ∈ rest, j < i) :
    ∀ (l : List α) (k : Nat), k ≤ i → i - k < l.length →
      dropPositionsFrom (i :: rest) l k = dropPositionsFrom rest (l.eraseIdx (i - k)) k := by
  intro l
  induction l with
  | nil => intro k _ h; simp at h
  | cons x xs ih =>
    intro k hki hlen
    by_cases hk : k = i
    · have h0 : i - k = 0 := by omega
      rw [h0]
      rw [show (x :: xs).eraseIdx 0 = xs from rfl]
      have hcontains : (i :: rest).contains k = true := by
        simp [hk]
      simp only [dropPositionsFrom, hcontains, if_true]
      rw [dropPositionsFrom_none xs (k + 1) (by
        intro j hj
        rcases List.mem_cons.mp hj with rfl | hjr
        · omega
        · have := hrest j hjr; omega)]
      rw [dropPositionsFrom_none xs k (by
        intro j hj
        have := hrest j hj
        omega)]
    · have hik : k < i := by omega
      have hcond : ((i :: rest).contains k) = (rest.contains k) := by
        simp only [List.contains_cons]
        rw [show (k == i) = false from by simpa using hk]
        simp
      have hsub : i - k = (i - (k + 1)) + 1 := by omega
      rw [hsub, List.eraseIdx_cons_succ]
      simp only [dropPositionsFrom, hcond]
      have hxslen : i - (k + 1) < xs.length := by
        simp only [List.length_cons] at hlen
        omega
      by_cases hkr : rest.contains k
      · simp only [hkr, if_true]
        exact ih (k + 1) (by omega) hxslen
      · simp only [hkr, Bool.false_eq_true, if_false]
        rw [ih (k + 1) (by omega) hxslen]

theorem foldl_eraseIdx_desc {α : Type} :
    ∀ (idxs : List Nat) (l : List α),
      List.Pairwise (fun a b => a > b) idxs → (∀ i ∈ idxs, i < l.length) →
      idxs.foldl (fun acc i => acc.eraseIdx i) l = dropPositions l idxs := by
  intro idxs
  induction idxs with
  | nil =>
    intro l _ _
    rw [dropPositions, dropPositionsFrom_none l 0 (by simp)]
    rfl
  | cons i rest ih =>
    intro l hpair hlt
    have hi : i < l.length := hlt i (List.mem_cons_self i rest)
    have hrest : ∀ j ∈ rest, j < i := fun j hj => (List.pairwise_cons.mp hpair).1 j hj
    have step : (i :: rest).foldl (fun acc i => acc.eraseIdx i) l =
        rest.foldl (fun acc i => acc.eraseIdx i) (l.eraseIdx i) := rfl
    rw [step, ih (l.eraseIdx i) (List.pairwise_cons.mp hpair).2 (by
      intro j hj
      rw [List.length_eraseIdx, if_pos hi]
      have := hrest j hj
      omega)]
    rw [dropPositions, dropPositions,
      dropPositionsFrom_eraseIdx hrest l 0 (by omega) (by simpa using hi)]
    rw [show i - 0 = i from rfl]

theorem assocSet_of_find {β : Type} :
    ∀ (l : List (String × β)) (k : String) (v : β),
      assocFind l k = some v → assocSet l k v = l := by
  intro l
  induction l with
  | nil => intro k v h; simp [assocFind] at h
  | cons e rest ih =>
    intro k v h
    obtain ⟨k', v'⟩ := e
    by_cases hk : k' = k
    · simp only [assocFind, if_pos hk] at h
      cases h
      simp [assocSet, hk]
    · simp only [assocFind, if_neg hk] at h
      simp [assocSet, hk, ih k v h]

theorem assocSet_assocSet {β : Type} :
    ∀ (l : List (String × β)) (k : String) (v v' : β),
      assocSet (assocSet l k v) k v' = assocSet l k v' := by
  intro l
  induction l with
  | nil => intro k v v'; simp [assocSet]
  | cons e rest ih =>
    intro k v v'
    obtain ⟨k1, v1⟩ := e
    by_cases hk : k1 = k
    · simp [assocSet, hk]
    · simp [assocSet, hk, ih]

theorem length_listSet (data : List JVal) (i : Int) (v : JVal) :
    (listSet data i v).length = data.length := by
  rw [listSet]
  by_cases h : 0 ≤ i ∧ i.toNat < data.length
  · rw [if_pos h]; exact List.length_set data i.toNat v
  · rw [if_neg h]

theorem listIdx_listSet_self {data : List JVal} {i : Int} (v : JVal)
    (h : 0 ≤ i ∧ i.toNat < data.length) :
    listIdx (listSet data i v) i = some v := by
  rw [listSet, if_pos h, listIdx]
  rw [dif_pos (by simpa [List.length_set] using h)]
  simp only [List.get_eq_getElem, List.getElem_set_self]

theorem listIdx_listSet_ne {data : List JVal} {i j : Int} (v : JVal) (hne : i ≠ j) :
    listIdx (listSet data i v) j = listIdx data j := by
  rw [listSet]
  by_cases h : 0 ≤ i ∧ i.toNat < data.length
  · rw [if_pos h, listIdx, listIdx]
    by_cases hj : 0 ≤ j ∧ j.toNat < data.length
    · rw [dif_pos (by simpa [List.length_set] using hj), dif_pos hj]
      simp only [List.get_eq_getElem]
      rw [List.getElem_set_ne (by omega)]
    · rw [dif_neg (by simpa [List.length_set] using hj), dif_neg hj]
  · rw [if_neg h]

theorem listIdx_some_range {data : List JVal} {i : Int} {v : JVal}
    (h : listIdx data i = some v) : 0 ≤ i ∧ i.toNat < data.length := by
  rw [listIdx] at h
  by_cases hr : 0 ≤ i ∧ i.toNat < data.length
  · exact hr
  · rw [dif_neg hr] at h; cases h

theorem removalLoop_node (n : Int) :
    ∀ (instrs : List Instruction),
      List.Pairwise (fun a b => removalCompIndex a > removalCompIndex b) instrs →
      ∀ (data : List JVal) (flds : List (String × JVal)) (refs : List JVal),
        listIdx data n = some (.obj flds) →
        assocFind flds "_components" = some (.arr refs) →
        (∀ ins ∈ instrs, ∃ cid cty ci p, ins = .REMOVE_COMPONENT n cid cty ci p ∧
          0 ≤ ci ∧ ci.toNat < refs.length ∧ cid ≠ n) →
        listIdx (removalLoop instrs data) n =
          some (.obj (assocSet flds "_components"
            (.arr (instrs.foldl (fun acc ins => acc.eraseIdx (removalCompIndex ins).toNat) refs)))) := by
  intro instrs
  induction instrs with
  | nil =>
    intro _ data flds refs hn hcomps _
    simp only [removalLoop, List.foldl_nil]
    rw [assocSet_of_find flds _ _ hcomps]
    exact hn
  | cons ins rest ih =>
    intro hpair data flds refs hn hcomps hall
    obtain ⟨cid, cty, ci, p, rfl, hci0, hcilt, hcidn⟩ := hall _ (List.mem_cons_self _ _)
    have hrange : 0 ≤ n ∧ n.toNat < data.length := listIdx_some_range hn
    have hciInt : 0 ≤ ci ∧ ci < (refs.length : Int) := ⟨hci0, by omega⟩
    have hstep : removalLoop (Instruction.REMOVE_COMPONENT n cid cty ci p :: rest) data =
        removalLoop rest
          (if truthyO (listIdx data cid)
           then listSet (listSet data n (.obj (assocSet flds "_components"
                  (.arr (refs.eraseIdx ci.toNat))))) cid .null
           else listSet data n (.obj (assocSet flds "_components"
                  (.arr (refs.eraseIdx ci.toNat))))) := by
      simp only [removalLoop, List.foldl_cons]
      congr 1
      rw [hn]
      simp only [JVal.truthy, getField, hcomps, truthyO, setFieldJS, Bool.and_self]
      rw [if_pos trivial, if_pos hciInt]
    rw [hstep]
    have hlen1 : ∀ d' : List JVal, (listSet d' n (JVal.obj (assocSet flds "_components"
        (.arr (refs.eraseIdx ci.toNat))))).length = d'.length := fun d' => length_listSet _ _ _
    have hreclen : (refs.eraseIdx ci.toNat).length = refs.length - 1 := by
      rw [List.length_eraseIdx, if_pos hcilt]
    have hrestvalid : ∀ ins' ∈ rest, ∃ cid' cty' ci' p',
        ins' = .REMOVE_COMPONENT n cid' cty' ci' p' ∧
        0 ≤ ci' ∧ ci'.toNat < (refs.eraseIdx ci.toNat).length ∧ cid' ≠ n := by
      intro ins' hins'
      obtain ⟨cid', cty', ci', p', rfl, h0, hlt, hne⟩ := hall _ (List.mem_cons_of_mem _ hins')
      refine ⟨cid', cty', ci', p', rfl, h0, ?_, hne⟩
      have hgt := (List.pairwise_cons.mp hpair).1 _ hins'
      simp only [removalCompIndex] at hgt
      rw [hreclen]
      omega
    have hn' : ∀ d2 : List JVal, d2 = (if truthyO (listIdx data cid)
           then listSet (listSet data n (.obj (assocSet flds "_components"
                  (.arr (refs.eraseIdx ci.toNat))))) cid .null
           else listSet data n (.obj (assocSet flds "_components"
                  (.arr (refs.eraseIdx ci.toNat))))) →
        listIdx d2 n = some (.obj (assocSet flds "_components" (.arr (refs.eraseIdx ci.toNat)))) := by
      intro d2 hd2
      by_cases hc : truthyO (listIdx data cid)
      · rw [hd2, if_pos hc, listIdx_listSet_ne _ (fun h => hcidn h)]
        exact listIdx_listSet_self _ hrange
      · rw [hd2, if_neg hc]
        exact listIdx_listSet_self _ hrange
    rw [List.foldl_cons]
    have hfold : (Instruction.REMOVE_COMPONENT n cid cty ci p :: rest).foldl
        (fun acc ins => acc.eraseIdx (removalCompIndex ins).toNat) refs =
        rest.foldl (fun acc ins => acc.eraseIdx (removalCompIndex ins).toNat)
          (refs.eraseIdx ci.toNat) := rfl
    have := ih (List.pairwise_cons.mp hpair).2 _
      (assocSet flds "_components" (.arr (refs.eraseIdx ci.toNat)))
      (refs.eraseIdx ci.toNat) (hn' _ rfl) (assocFind_assocSet_self _ _ _) hrestvalid
    rw [this, assocSet_assocSet]
    simp only [removalCompIndex]

/-- Permuted index lists are interchangeable for `List.contains`. -/
theorem contains_eq_of_perm {l l' : List Nat} (h : l.Perm l') :
    ∀ k : Nat, l.contains k = l'.contains k := by
  intro k
  have hiff : l.contains k = true ↔ l'.contains k = true := by
    simp only [List.contains_eq_any_beq, List.any_eq_true, beq_iff_eq]
    constructor
    · rintro ⟨j, hj, rfl⟩; exact ⟨k, h.mem_iff.mp hj, rfl⟩
    · rintro ⟨j, hj, rfl⟩; exact ⟨k, h.mem_iff.mpr hj, rfl⟩
  cases hl : l.contains k <;> cases hl2 : l'.contains k <;> simp_all

/-- C10: `applyRemovalInstructions` sorts its `REMOVE_COMPONENT` instructions in
descending order of the recorded `compIndex` before splicing (the JS comparator
`(a, b) => b.compIndex - a.compIndex`), so for a node with several removals each
recorded position is still the component's actual position when spliced: the
surviving `_components` list is exactly the original list with the listed
positions dropped (so exactly the listed references are removed and the
relative order of the remaining references is preserved), and the function's
result is the compaction of that removal loop. -/
theorem c10_removal_splice_order (data : List JVal) (gens : List Instruction) (n : Int)
    (flds : List (String × JVal)) (refs : List JVal)
    (hn : listIdx data n = some (.obj flds))
    (hcomps : assocFind flds "_components" = some (.arr refs))
    (hall : ∀ ins ∈ gens, ∃ cid cty ci p, ins = .REMOVE_COMPONENT n cid cty ci p ∧
        0 ≤ ci ∧ ci.toNat < refs.length ∧ cid ≠ n)
    (hnodup : (gens.map removalCompIndex).Nodup) :
    List.Pairwise (fun a b => removalCompIndex a ≥ removalCompIndex b)
      (jsSort (fun a b => removalCompIndex b ≤ removalCompIndex a) gens) ∧
    (jsSort (fun a b => removalCompIndex b ≤ removalCompIndex a) gens).Perm gens ∧
    listIdx (removalLoop (jsSort (fun a b => removalCompIndex b ≤ removalCompIndex a) gens) data) n =
      some (.obj (assocSet flds "_components"
        (.arr (dropPositions refs (gens.map (fun i => (removalCompIndex i).toNat)))))) ∧
    applyRemovalInstructions data gens =
      compactAndReindexPrefab
        (removalLoop (jsSort (fun a b => removalCompIndex b ≤ removalCompIndex a) gens) data) := by
  have hperm : (jsSort (fun a b => removalCompIndex b ≤ removalCompIndex a) gens).Perm gens :=
    jsSort_perm _ _
  have hge : List.Pairwise (fun a b => removalCompIndex a ≥ removalCompIndex b)
      (jsSort (fun a b => removalCompIndex b ≤ removalCompIndex a) gens) := by
    refine (pairwise_jsSort _ ?_ ?_ gens).imp ?_
    · intro a b
      rcases Int.le_total (removalCompIndex b) (removalCompIndex a) with h | h
      · left; simpa using h
      · right; simpa using h
    · intro a b c hab hbc
      simp only [decide_eq_true_eq] at hab hbc ⊢
      omega
    · intro a b hab
      simpa using hab
  refine ⟨hge, hperm, ?_, rfl⟩
  have hnodup' : ((jsSort (fun a b => removalCompIndex b ≤ removalCompIndex a) gens).map
      removalCompIndex).Nodup := ((hperm.map removalCompIndex).nodup_iff).mpr hnodup
  have hne : List.Pairwise (fun a b => removalCompIndex a ≠ removalCompIndex b)
      (jsSort (fun a b => removalCompIndex b ≤ removalCompIndex a) gens) :=
    List.pairwise_map.mp hnodup'
  have hgt : List.Pairwise (fun a b => removalCompIndex a > removalCompIndex b)
      (jsSort (fun a b => removalCompIndex b ≤ removalCompIndex a) gens) :=
    (hge.and hne).imp (fun h => by omega)
  have hall' : ∀ ins ∈ jsSort (fun a b => removalCompIndex b ≤ removalCompIndex a) gens,
      ∃ cid cty ci p, ins = .REMOVE_COMPONENT n cid cty ci p ∧
        0 ≤ ci ∧ ci.toNat < refs.length ∧ cid ≠ n :=
    fun ins hins => hall ins (hperm.mem_iff.mp hins)
  rw [removalLoop_node n _ hgt data flds refs hn hcomps hall']
  congr 3
  have hfold :
      List.foldl (fun acc ins => acc.eraseIdx (removalCompIndex ins).toNat) refs
        (jsSort (fun a b => removalCompIndex b ≤ removalCompIndex a) gens) =
      List.foldl (fun acc i => acc.eraseIdx i) refs
        ((jsSort (fun a b => removalCompIndex b ≤ removalCompIndex a) gens).map
          (fun ins => (removalCompIndex ins).toNat)) :=
    (List.foldl_map _ _ _ _).symm
  rw [hfold, foldl_eraseIdx_desc _ refs ?_ ?_]
  · exact congrArg JVal.arr (dropPositionsFrom_congr
      (contains_eq_of_perm (hperm.map (fun i => (removalCompIndex i).toNat))) refs 0)
  · refine List.pairwise_map.mpr (hgt.imp_of_mem ?_)
    intro a b ha hb hab
    obtain ⟨_, _, cia, _, rfl, h0a, _, _⟩ := hall' a ha
    obtain ⟨_, _, cib, _, rfl, h0b, _, _⟩ := hall' b hb
    simp only [removalCompIndex] at hab ⊢
    omega
  · intro i hi
    obtain ⟨ins, hins, rfl⟩ := List.mem_map.mp hi
    obtain ⟨_, _, ci, _, rfl, h0, hlt, _⟩ := hall' ins hins
    simpa [removalCompIndex] using hlt

/-- A three-record graph: a node whose component list references slots 1 and 2. -/
def c10Data : List JVal :=
  [.obj [("__type__", .str "cc.Node"),
     ("_components", .arr [.obj [("__id__", .num 1)], .obj [("__id__", .num 2)]])],
   .obj [("__type__", .str "cc.UIOpacity")],
   .obj [("__type__", .str "cc.UITransform")]]

/-- Two removal instructions for the node at slot 0, recorded positions 0 and 1. -/
def c10Gens : List Instruction :=
  [.REMOVE_COMPONENT 0 1 "cc.UIOpacity" 0 "R",
   .REMOVE_COMPONENT 0 2 "cc.UITransform" 1 "R"]

def c10Flds : List (String × JVal) :=
  [("__type__", .str "cc.Node"),
   ("_components", .arr [.obj [("__id__", .num 1)], .obj [("__id__", .num 2)]])]

def c10Refs : List JVal := [.obj [("__id__", .num 1)], .obj [("__id__", .num 2)]]

/-- Witness for C10 on a concrete two-removal node. -/
theorem c10_removal_splice_order_witness :
    List.Pairwise (fun a b => removalCompIndex a ≥ removalCompIndex b)
      (jsSort (fun a b => removalCompIndex b ≤ removalCompIndex a) c10Gens) ∧
    (jsSort (fun a b => removalCompIndex b ≤ removalCompIndex a) c10Gens).Perm c10Gens ∧
    listIdx (removalLoop (jsSort (fun a b => removalCompIndex b ≤ removalCompIndex a) c10Gens) c10Data) 0 =
      some (.obj (assocSet c10Flds "_components"
        (.arr (dropPositions c10Refs (c10Gens.map (fun i => (removalCompIndex i).toNat)))))) ∧
    applyRemovalInstructions c10Data c10Gens =
      compactAndReindexPrefab
        (removalLoop (jsSort (fun a b => removalCompIndex b ≤ removalCompIndex a) c10Gens) c10Data) := by
  refine c10_removal_splice_order c10Data c10Gens 0 c10Flds c10Refs (by decide) (by decide) ?_ (by decide)
  intro ins hins
  have hins2 : ins = Instruction.REMOVE_COMPONENT 0 1 "cc.UIOpacity" 0 "R" ∨
      ins = Instruction.REMOVE_COMPONENT 0 2 "cc.UITransform" 1 "R" := by
    simpa [c10Gens] using hins
  rcases hins2 with rfl | rfl
  · exact ⟨1, "cc.UIOpacity", 0, "R", rfl, by decide, by decide, by decide⟩
  · exact ⟨2, "cc.UITransform", 1, "R", rfl, by decide, by decide, by decide⟩

/-- One iteration of the removal loop of `applyRemovalInstructions`. -/
def stepRemoval (d : List JVal) (ins : Instruction) : List JVal :=
  match ins with
  | .REMOVE_COMPONENT nodeId compId _ compIndex _ =>
    let comp := listIdx d compId
    match listIdx d nodeId with
    | some n =>
      if n.truthy && truthyO (getField n "_components") then
        let d1 :=
          match getField n "_components" with
          | some (.arr refs) =>
            if 0 ≤ compIndex ∧ compIndex < (refs.length : Int) then
              listSet d nodeId (setFieldJS n "_components" (.arr (refs.eraseIdx compIndex.toNat)))
            else d
          | _ => d
        if truthyO comp then listSet d1 compId .null else d1
      else d
    | none => d
  | _ => d



/-- The removal loop processes its instruction list head first. -/
theorem removalLoop_cons (g : Instruction) (rest : List Instruction) (d : List JVal) :
    removalLoop (g :: rest) d = removalLoop rest (stepRemoval d g) := rfl

/-- Every slot after one removal iteration is unchanged, tombstoned at the
instruction's own `compId`, or rewritten from a truthy old value to an object
with a truthy `_components` property (the spliced owning node). -/
theorem stepRemoval_shape (d : List JVal) (ins : Instruction) (k : Int) :
    listIdx (stepRemoval d ins) k = listIdx d k ∨
    ((∃ n cid cty ci p, ins = .REMOVE_COMPONENT n cid cty ci p ∧ k = cid) ∧
      listIdx (stepRemoval d ins) k = some .null) ∨
    (∃ w, listIdx d k = some w ∧ w.truthy = true ∧
      ∃ fs, listIdx (stepRemoval d ins) k = some (.obj fs) ∧
        truthyO (assocFind fs "_components") = true) := by
  cases ins with
  | TRANSFORM_TO_NODE a b c e => left; rfl
  | TRANSFORM_TO_COMPONENT a b c e => left; rfl
  | MIGRATE_COMPONENT a b c => left; rfl
  | REPLACE_COMPONENT_TYPE a b c e f g => left; rfl
  | REPLACE_STRING_GLOBAL a b => left; rfl
  | REMOVE_COMPONENT nodeId compId cty ci p =>
    have hcrange : truthyO (listIdx d compId) = true →
        0 ≤ compId ∧ compId.toNat < d.length := by
      intro hct
      cases hcc : listIdx d compId with
      | none => rw [hcc] at hct; cases hct
      | some c => exact listIdx_some_range hcc
    unfold stepRemoval
    dsimp only
    cases hnode : listIdx d nodeId with
    | none => left; rfl
    | some v =>
      dsimp only
      by_cases hcond : (v.truthy && truthyO (getField v "_components")) = true
      · rw [if_pos hcond]
        have hcond2 := hcond
        simp only [Bool.and_eq_true] at hcond2
        obtain ⟨hvt, hvc⟩ := hcond2
        obtain ⟨fs0, rfl⟩ : ∃ fs0, v = .obj fs0 := by
          cases v with
          | obj fs0 => exact ⟨fs0, rfl⟩
          | null => cases hvc
          | bool b => cases hvc
          | num n => cases hvc
          | str s => cases hvc
          | arr xs => cases hvc
        have hnr : 0 ≤ nodeId ∧ nodeId.toNat < d.length := listIdx_some_range hnode
        by_cases hct : truthyO (listIdx d compId) = true
        · rw [if_pos hct]
          by_cases hkc : compId = k
          · subst hkc
            right; left
            refine ⟨⟨nodeId, compId, cty, ci, p, rfl, rfl⟩, ?_⟩
            split
            next refs heq =>
              by_cases hir : 0 ≤ ci ∧ ci < (refs.length : Int)
              · rw [if_pos hir]
                exact listIdx_listSet_self _ (by rw [length_listSet]; exact hcrange hct)
              · rw [if_neg hir]
                exact listIdx_listSet_self _ (hcrange hct)
            next =>
              exact listIdx_listSet_self _ (hcrange hct)
          · rw [listIdx_listSet_ne _ hkc]
            split
            next refs heq =>
              by_cases hir : 0 ≤ ci ∧ ci < (refs.length : Int)
              · rw [if_pos hir]
                by_cases hkn : nodeId = k
                · subst hkn
                  right; right
                  refine ⟨.obj fs0, hnode, hvt, assocSet fs0 "_components"
                    (.arr (refs.eraseIdx ci.toNat)), ?_, ?_⟩
                  · exact listIdx_listSet_self _ hnr
                  · rw [assocFind_assocSet_self]; rfl
                · left; rw [listIdx_listSet_ne _ hkn]
              · rw [if_neg hir]; left; rfl
            next =>
              left; rfl
        · rw [if_neg hct]
          split
          next refs heq =>
            by_cases hir : 0 ≤ ci ∧ ci < (refs.length : Int)
            · rw [if_pos hir]
              by_cases hkn : nodeId = k
              · subst hkn
                right; right
                refine ⟨.obj fs0, hnode, hvt, assocSet fs0 "_components"
                  (.arr (refs.eraseIdx ci.toNat)), ?_, ?_⟩
                · exact listIdx_listSet_self _ hnr
                · rw [assocFind_assocSet_self]; rfl
              · left; rw [listIdx_listSet_ne _ hkn]
            · rw [if_neg hir]; left; rfl
          next =>
            left; rfl
      · rw [if_neg hcond]; left; rfl

/-- An iteration whose owning node resolves to an object with a truthy
`_components` property leaves its component slot `null` (either the `delete`
fires on the truthy record, or the slot was already a tombstone). -/
theorem stepRemoval_tombstone {data : List JVal} {n cid : Int} {cty : String} {ci : Int}
    {p : String}
    (hnode : ∃ fs, listIdx data n = some (.obj fs) ∧
      truthyO (assocFind fs "_components") = true)
    (hcomp : ∃ v, listIdx data cid = some v ∧ (v.truthy = true ∨ v = .null)) :
    listIdx (stepRemoval data (.REMOVE_COMPONENT n cid cty ci p)) cid = some .null := by
  obtain ⟨fs, hn, hc⟩ := hnode
  obtain ⟨v, hv, hvt⟩ := hcomp
  have hcr := listIdx_some_range hv
  unfold stepRemoval
  dsimp only
  rw [hn]
  dsimp only
  rw [if_pos (by
    show (JVal.truthy (.obj fs) && truthyO (getField (.obj fs) "_components")) = true
    simp only [JVal.truthy, getField, hc, Bool.and_self])]
  rcases hvt with hvt | rfl
  · rw [if_pos (by rw [hv]; exact hvt)]
    split
    next refs heq =>
      by_cases hir : 0 ≤ ci ∧ ci < (refs.length : Int)
      · rw [if_pos hir]
        exact listIdx_listSet_self _ (by rw [length_listSet]; exact hcr)
      · rw [if_neg hir]
        exact listIdx_listSet_self _ hcr
    next =>
      exact listIdx_listSet_self _ hcr
  · rw [if_neg (by rw [hv]; exact Bool.false_ne_true)]
    have hncid : n ≠ cid := by
      intro h
      rw [h, hv] at hn
      cases hn
    split
    next refs heq =>
      by_cases hir : 0 ≤ ci ∧ ci < (refs.length : Int)
      · rw [if_pos hir, listIdx_listSet_ne _ hncid]
        exact hv
      · rw [if_neg hir]; exact hv
    next =>
      exact hv

/-- A tombstoned slot stays tombstoned for the rest of the removal loop:
node splices only target truthy slots and component deletes write `null`. -/
theorem removalLoop_null_stable :
    ∀ (instrs : List Instruction) (d : List JVal) (k : Int),
      listIdx d k = some .null → listIdx (removalLoop instrs d) k = some .null := by
  intro instrs
  induction instrs with
  | nil => intro d k h; exact h
  | cons g rest ih =>
    intro d k h
    rw [removalLoop_cons]
    apply ih
    rcases stepRemoval_shape d g k with heq | ⟨_, hnull⟩ | ⟨w, hw, hwt, _, _, _⟩
    · rw [heq]; exact h
    · exact hnull
    · rw [hw] at h
      cases h
      cases hwt

/-- Every instruction's component slot is `null` after the removal loop,
provided each owning node is an object with a truthy `_components` property,
each component slot is truthy or already vacated, and no instruction's
component id is another instruction's node id (true of generated plans: node
ids are `cc.Node` records, component ids are component records). -/
theorem removalLoop_tombstones :
    ∀ (gens : List Instruction) (data : List JVal),
      (∀ ins ∈ gens, ∃ n cid cty ci p, ins = .REMOVE_COMPONENT n cid cty ci p ∧
        (∃ fs, listIdx data n = some (.obj fs) ∧
          truthyO (assocFind fs "_components") = true) ∧
        (∃ v, listIdx data cid = some v ∧ (v.truthy = true ∨ v = .null))) →
      (∀ ins ∈ gens, ∀ ins' ∈ gens, ∀ n cid cty ci p n' cid' cty' ci' p',
        ins = .REMOVE_COMPONENT n cid cty ci p →
        ins' = .REMOVE_COMPONENT n' cid' cty' ci' p' → cid' ≠ n) →
      ∀ n cid cty ci p, .REMOVE_COMPONENT n cid cty ci p ∈ gens →
        listIdx (removalLoop gens data) cid = some .null := by
  intro gens
  induction gens with
  | nil => intro _ _ _ _ _ _ _ _ h; cases h
  | cons g rest ih =>
    intro data hplan hcross n cid cty ci p hmem
    rw [removalLoop_cons]
    rcases List.mem_cons.mp hmem with rfl | hmem'
    · obtain ⟨n1, cid1, cty1, ci1, p1, heq, hnode, hcomp⟩ :=
        hplan _ (List.mem_cons_self _ _)
      cases heq
      exact removalLoop_null_stable rest _ cid (stepRemoval_tombstone hnode hcomp)
    · refine ih (stepRemoval data g) ?_ ?_ n cid cty ci p hmem'
      · intro ins hins
        obtain ⟨n1, cid1, cty1, ci1, p1, rfl, ⟨fs, hnfs, hcomps⟩, ⟨v, hv, hvt⟩⟩ :=
          hplan _ (List.mem_cons_of_mem _ hins)
        refine ⟨n1, cid1, cty1, ci1, p1, rfl, ?_, ?_⟩
        · rcases stepRemoval_shape data g n1 with heq | ⟨⟨gn, gcid, gcty, gci, gp, rfl, rfl⟩, hnull⟩ |
            ⟨w, hw, hwt, fs', hfs', hcomps'⟩
          · exact ⟨fs, heq ▸ hnfs, hcomps⟩
          · exact absurd rfl (hcross _ (List.mem_cons_of_mem _ hins) _ (List.mem_cons_self _ _)
              _ _ _ _ _ _ _ _ _ _ rfl rfl)
          · exact ⟨fs', hfs', hcomps'⟩
        · rcases stepRemoval_shape data g cid1 with heq | ⟨_, hnull⟩ |
            ⟨w, hw, hwt, fs', hfs', _⟩
          · exact ⟨v, heq ▸ hv, hvt⟩
          · exact ⟨.null, hnull, Or.inr rfl⟩
          · exact ⟨.obj fs', hfs', Or.inl rfl⟩
      · intro ins hins ins' hins' n1 cid1 cty1 ci1 p1 n1' cid1' cty1' ci1' p1' h1 h1'
        exact hcross _ (List.mem_cons_of_mem _ hins) _ (List.mem_cons_of_mem _ hins')
          _ _ _ _ _ _ _ _ _ _ h1 h1'

/-- C2 (amended): applying removal instructions tombstones exactly the
planned component slots — after the descending-sorted removal loop every
instruction's `compId` slot is `null` — and the function's result is the
stable compaction of the loop output: the tombstoned slots are dropped and
every surviving record is the reference-rewritten image of a live loop
record.  The claim's universal form is false: a record of a removed kind
that no planned node references survives (no instruction is generated for
it), and a surviving reference whose target was removed keeps its stale
index.  See the counterexample. -/
theorem c2_removal_amended (data : List JVal) (gens : List Instruction)
    (hplan : ∀ ins ∈ gens, ∃ n cid cty ci p, ins = .REMOVE_COMPONENT n cid cty ci p ∧
      (∃ fs, listIdx data n = some (.obj fs) ∧
        truthyO (assocFind fs "_components") = true) ∧
      (∃ v, listIdx data cid = some v ∧ (v.truthy = true ∨ v = .null)))
    (hcross : ∀ ins ∈ gens, ∀ ins' ∈ gens, ∀ n cid cty ci p n' cid' cty' ci' p',
      ins = .REMOVE_COMPONENT n cid cty ci p →
      ins' = .REMOVE_COMPONENT n' cid' cty' ci' p' → cid' ≠ n) :
    (∀ n cid cty ci p, Instruction.REMOVE_COMPONENT n cid cty ci p ∈ gens →
      listIdx (removalLoop (jsSort (fun a b => removalCompIndex b ≤ removalCompIndex a) gens)
        data) cid = some .null) ∧
    applyRemovalInstructions data gens =
      ((removalLoop (jsSort (fun a b => removalCompIndex b ≤ removalCompIndex a) gens)
          data).filter (fun x => !isTombstone x)).map
        (updateRefs (oldToNewIdMap
          (removalLoop (jsSort (fun a b => removalCompIndex b ≤ removalCompIndex a) gens)
            data))) ∧
    (∀ r ∈ applyRemovalInstructions data gens,
      ∃ v ∈ removalLoop (jsSort (fun a b => removalCompIndex b ≤ removalCompIndex a) gens) data,
        isTombstone v = false ∧
        r = updateRefs (oldToNewIdMap
          (removalLoop (jsSort (fun a b => removalCompIndex b ≤ removalCompIndex a) gens)
            data)) v) := by
  have hperm : (jsSort (fun a b => removalCompIndex b ≤ removalCompIndex a) gens).Perm gens :=
    jsSort_perm _ _
  have hplan' : ∀ ins ∈ jsSort (fun a b => removalCompIndex b ≤ removalCompIndex a) gens,
      ∃ n cid cty ci p, ins = .REMOVE_COMPONENT n cid cty ci p ∧
        (∃ fs, listIdx data n = some (.obj fs) ∧
          truthyO (assocFind fs "_components") = true) ∧
        (∃ v, listIdx data cid = some v ∧ (v.truthy = true ∨ v = .null)) :=
    fun ins hins => hplan ins (hperm.mem_iff.mp hins)
  have hcross' : ∀ ins ∈ jsSort (fun a b => removalCompIndex b ≤ removalCompIndex a) gens,
      ∀ ins' ∈ jsSort (fun a b => removalCompIndex b ≤ removalCompIndex a) gens,
      ∀ n cid cty ci p n' cid' cty' ci' p',
        ins = .REMOVE_COMPONENT n cid cty ci p →
        ins' = .REMOVE_COMPONENT n' cid' cty' ci' p' → cid' ≠ n :=
    fun ins hins ins' hins' => hcross ins (hperm.mem_iff.mp hins) ins' (hperm.mem_iff.mp hins')
  refine ⟨?_, rfl, ?_⟩
  · intro n cid cty ci p hmem
    exact removalLoop_tombstones _ data hplan' hcross' n cid cty ci p (hperm.mem_iff.mpr hmem)
  · intro r hr
    have hr2 : r ∈ ((removalLoop (jsSort (fun a b => removalCompIndex b ≤ removalCompIndex a)
        gens) data).filter (fun x => !isTombstone x)).map
          (updateRefs (oldToNewIdMap
            (removalLoop (jsSort (fun a b => removalCompIndex b ≤ removalCompIndex a) gens)
              data))) := hr
    obtain ⟨v, hv, rfl⟩ := List.mem_map.mp hr2
    obtain ⟨hvmem, hvlive⟩ := List.mem_filter.mp hv
    refine ⟨v, hvmem, ?_, rfl⟩
    simpa using hvlive

/-- Removal counterexample graph: node `R` owns a `UIOpacity` (slot 1, will
be removed) and a `cc.Foo` whose `dep` field references slot 1; slot 3 holds
an orphaned `UIOpacity` referenced by no node. -/
def exC2data : List JVal :=
  [.obj [("__type__", .str "cc.Node"), ("_name", .str "R"),
     ("_components", .arr [.obj [("__id__", .num 1)], .obj [("__id__", .num 2)]])],
   .obj [("__type__", .str "cc.UIOpacity"), ("_opacity", .num 128)],
   .obj [("__type__", .str "cc.Foo"), ("dep", .obj [("__id__", .num 1)])],
   .obj [("__type__", .str "cc.UIOpacity"), ("_opacity", .num 7)]]

/-- The parsed tree of the removal counterexample graph. -/
def exC2tree : JVal := (parsePrefab (.arr exC2data)).getD .null

/-- The pipeline output on `exC2data`: the orphaned `UIOpacity` survives at
slot 2, and `Foo.dep` still carries the removed component's former id `1`
(now denoting `Foo` itself). -/
def exC2result : List JVal :=
  [.obj [("__type__", .str "cc.Node"), ("_name", .str "R"),
     ("_components", .arr [.obj [("__id__", .num 1)]])],
   .obj [("__type__", .str "cc.Foo"), ("dep", .obj [("__id__", .num 1)])],
   .obj [("__type__", .str "cc.UIOpacity"), ("_opacity", .num 7)]]

/-- C2 (counterexample): on `exC2data` the generator plans exactly one
removal (the referenced `UIOpacity`), yet the final array still holds a
record of a removed kind (the orphan, position 2), and the surviving `Foo`
record's `dep` reference still points to the removed component's former
slot id. -/
theorem c2_removal_counterexample :
    parsePrefab (.arr exC2data) = some exC2tree ∧
    generateRemovalInstructions (buildPathMap exC2tree) exC2data =
      [.REMOVE_COMPONENT 0 1 "UIOpacity" 0 "R"] ∧
    applyRemovalInstructions exC2data
      (generateRemovalInstructions (buildPathMap exC2tree) exC2data) = exC2result ∧
    (exC2result.any fun r =>
      COMPONENTS_TO_REMOVE.contains
        (jsReplaceOnce (match getField r "__type__" with
                        | some (.str t) => t
                        | _ => "") "cc." "")) = true ∧
    listIdx exC2data 1 = some (.obj [("__type__", .str "cc.UIOpacity"),
      ("_opacity", .num 128)]) ∧
    getField (exC2result.getD 1 .null) "dep" = some (.obj [("__id__", .num 1)]) := by
  refine ⟨rfl, by decide, by decide, by decide, by decide, by decide⟩

/-- Witness for C2 (amended) on a concrete one-instruction plan. -/
theorem c2_removal_witness :
    (∀ n cid cty ci p, Instruction.REMOVE_COMPONENT n cid cty ci p ∈
        [Instruction.REMOVE_COMPONENT 0 1 "UIOpacity" 0 "R"] →
      listIdx (removalLoop (jsSort (fun a b => removalCompIndex b ≤ removalCompIndex a)
          [Instruction.REMOVE_COMPONENT 0 1 "UIOpacity" 0 "R"]) exC2data) cid =
        some .null) ∧
    applyRemovalInstructions exC2data [Instruction.REMOVE_COMPONENT 0 1 "UIOpacity" 0 "R"] =
      ((removalLoop (jsSort (fun a b => removalCompIndex b ≤ removalCompIndex a)
          [Instruction.REMOVE_COMPONENT 0 1 "UIOpacity" 0 "R"]) exC2data).filter
        (fun x => !isTombstone x)).map
        (updateRefs (oldToNewIdMap
          (removalLoop (jsSort (fun a b => removalCompIndex b ≤ removalCompIndex a)
            [Instruction.REMOVE_COMPONENT 0 1 "UIOpacity" 0 "R"]) exC2data))) ∧
    (∀ r ∈ applyRemovalInstructions exC2data
        [Instruction.REMOVE_COMPONENT 0 1 "UIOpacity" 0 "R"],
      ∃ v ∈ removalLoop (jsSort (fun a b => removalCompIndex b ≤ removalCompIndex a)
          [Instruction.REMOVE_COMPONENT 0 1 "UIOpacity" 0 "R"]) exC2data,
        isTombstone v = false ∧
        r = updateRefs (oldToNewIdMap
          (removalLoop (jsSort (fun a b => removalCompIndex b ≤ removalCompIndex a)
            [Instruction.REMOVE_COMPONENT 0 1 "UIOpacity" 0 "R"]) exC2data)) v) := by
  refine c2_removal_amended exC2data [Instruction.REMOVE_COMPONENT 0 1 "UIOpacity" 0 "R"] ?_ ?_
  · intro ins hins
    have hins2 : ins = Instruction.REMOVE_COMPONENT 0 1 "UIOpacity" 0 "R" := by
      simpa using hins
    subst hins2
    exact ⟨0, 1, "UIOpacity", 0, "R", rfl,
      ⟨[("__type__", .str "cc.Node"), ("_name", .str "R"),
        ("_components", .arr [.obj [("__id__", .num 1)], .obj [("__id__", .num 2)]])],
        by decide, by decide⟩,
      ⟨.obj [("__type__", .str "cc.UIOpacity"), ("_opacity", .num 128)], by decide,
        Or.inl (by decide)⟩⟩
  · intro ins hins ins' hins' n cid cty ci p n' cid' cty' ci' p' h1 h1'
    have hins2 : ins = Instruction.REMOVE_COMPONENT 0 1 "UIOpacity" 0 "R" := by
      simpa using hins
    have hins2' : ins' = Instruction.REMOVE_COMPONENT 0 1 "UIOpacity" 0 "R" := by
      simpa using hins'
    subst hins2; subst hins2'
    cases h1; cases h1'
    decide

/-- A successful association-list lookup returns a binding of the list. -/
theorem assocFind_mem {β : Type} : ∀ {l : List (String × β)} {k : String} {v : β},
    assocFind l k = some v → (k, v) ∈ l := by
  intro l
  induction l with
  | nil => intro k v h; cases h
  | cons e rest ih =>
    intro k v h
    obtain ⟨k', v'⟩ := e
    by_cases hk : k' = k
    · subst hk
      rw [assocFind, if_pos rfl] at h
      cases h
      exact List.mem_cons_self _ _
    · rw [assocFind, if_neg hk] at h
      exact List.mem_cons_of_mem _ (ih h)

/-- A fold that appends the elements satisfying a predicate is a filter. -/
theorem foldl_filter_append {α : Type} (p : α → Bool) :
    ∀ (l acc : List α), l.foldl (fun a x => if p x then a ++ [x] else a) acc = acc ++ l.filter p := by
  intro l
  induction l with
  | nil => intro acc; simp
  | cons x xs ih =>
    intro acc
    rw [List.foldl_cons]
    by_cases hx : p x
    · rw [if_pos hx, ih, List.filter_cons_of_pos hx]
      simp
    · rw [if_neg hx, ih, List.filter_cons_of_neg hx]

/-- The per-field condition of the generic migration collection loop: the
source value is not `null`, the same-named field exists on the v2 component,
the value is not a tree-resolved cross-reference, and `shouldMigrateField`
allows the field. -/
def migrateFieldPred (v2Comp : JVal) (compType : String) (kv : String × JVal) : Bool :=
  !(kv.2 == .null) && (getField v2Comp kv.1).isSome &&
    !(truthyO (getField kv.2 "__type__") && truthyO (getField kv.2 "__ref__")) &&
    shouldMigrateField FIELD_WHITELIST compType kv.1

/-- The collection loop keeps exactly the source fields passing `migrateFieldPred`. -/
theorem migrateFieldsOf_eq_filter (fs : List (String × JVal)) (v2Comp : JVal)
    (compType : String) :
    migrateFieldsOf (.obj fs) v2Comp compType = fs.filter (migrateFieldPred v2Comp compType) := by
  rw [migrateFieldsOf]
  rw [show fs.foldl
      (fun acc kv =>
        if kv.2 = .null then acc
        else
          match getField v2Comp kv.1 with
          | none => acc
          | some _ =>
            if truthyO (getField kv.2 "__type__") && truthyO (getField kv.2 "__ref__") then acc
            else if shouldMigrateField FIELD_WHITELIST compType kv.1 then acc ++ [kv]
            else acc) [] =
    fs.foldl (fun a x => if migrateFieldPred v2Comp compType x then a ++ [x] else a) [] from ?_]
  · exact foldl_filter_append _ fs []
  · apply List.foldl_ext
    intro acc kv hkv
    rcases kv with ⟨k, v⟩
    by_cases hnull : v = JVal.null
    · subst hnull
      rw [if_pos rfl]
      simp [migrateFieldPred]
    · rw [if_neg hnull]
      cases hg : getField v2Comp k with
      | none => simp [migrateFieldPred, hg, hnull]
      | some w =>
        by_cases hcr : (truthyO (getField v "__type__") && truthyO (getField v "__ref__")) = true
        · rw [hcr]
          simp [migrateFieldPred, hg, hnull, hcr]
        · rw [Bool.not_eq_true] at hcr
          rw [hcr]
          by_cases hs : shouldMigrateField FIELD_WHITELIST compType k = true
          · simp [migrateFieldPred, hg, hnull, hcr, hs]
          · simp only [Bool.not_eq_true] at hs
            simp [migrateFieldPred, hg, hnull, hcr, hs]

/-- A fold whose step only ever extends its accumulator keeps every element. -/
theorem mem_foldl_mono {α β : Type} (step : List α → β → List α)
    (hmono : ∀ acc x, ∀ a ∈ acc, a ∈ step acc x) :
    ∀ (l : List β) (acc : List α) (a : α), a ∈ acc → a ∈ l.foldl step acc := by
  intro l
  induction l with
  | nil => intro acc a ha; exact ha
  | cons x xs ih =>
    intro acc a ha
    rw [List.foldl_cons]
    exact ih _ _ (hmono acc x a ha)

/-- Membership in an accumulator-extending fold, witnessed by one step that
always contributes the element. -/
theorem mem_foldl_of_mem_step {α β : Type} (step : List α → β → List α)
    (hmono : ∀ acc x, ∀ a ∈ acc, a ∈ step acc x) :
    ∀ (l : List β) (x : β), x ∈ l → ∀ (a : α), (∀ acc, a ∈ step acc x) →
      ∀ acc, a ∈ l.foldl step acc := by
  intro l
  induction l with
  | nil => intro x hx; cases hx
  | cons y ys ih =>
    intro x hx a hstep acc
    rw [List.foldl_cons]
    rcases List.mem_cons.mp hx with rfl | hx'
    · exact mem_foldl_mono step hmono ys _ a (hstep acc)
    · exact ih x hx' a hstep _

/-- The data slot an instruction of `applyMigrationInstructions` writes to
(`none` for the instruction kinds its switch ignores). -/
def migrationTargetId : Instruction → Option Int
  | .TRANSFORM_TO_NODE nid _ _ _ => some nid
  | .TRANSFORM_TO_COMPONENT cid _ _ _ => some cid
  | .MIGRATE_COMPONENT cid _ _ => some cid
  | _ => none

/-- One iteration of `applyMigrationInstructions`. -/
def stepMigration (data : List JVal) (ins : Instruction) : List JVal :=
  match ins with
  | .TRANSFORM_TO_NODE targetNodeId field value _ =>
    match listIdx data targetNodeId with
    | some node =>
      if node.truthy && (getField node "__type__" == some (.str "cc.Node")) then
        listSet data targetNodeId (setFieldJS node field value)
      else data
    | none => data
  | .TRANSFORM_TO_COMPONENT targetCompId field value _ =>
    match listIdx data targetCompId with
    | some comp =>
      if comp.truthy then listSet data targetCompId (setFieldJS comp field value) else data
    | none => data
  | .MIGRATE_COMPONENT targetCompId _ fields =>
    match listIdx data targetCompId with
    | some comp =>
      if comp.truthy then
        listSet data targetCompId (fields.foldl (fun c fv => setFieldJS c fv.1 fv.2) comp)
      else data
    | none => data
  | _ => data

/-- The migration applier processes its instruction list head first. -/
theorem applyMigration_cons (d : List JVal) (g : Instruction) (rest : List Instruction) :
    applyMigrationInstructions d (g :: rest) = applyMigrationInstructions (stepMigration d g) rest := rfl

/-- A migration iteration leaves every slot other than its target unchanged. -/
theorem stepMigration_other {d : List JVal} {ins : Instruction} {k : Int}
    (h : migrationTargetId ins ≠ some k) :
    listIdx (stepMigration d ins) k = listIdx d k := by
  cases ins with
  | TRANSFORM_TO_NODE nid field value src =>
    have hne : nid ≠ k := fun he => h (by rw [migrationTargetId, he])
    unfold stepMigration
    dsimp only
    cases hnode : listIdx d nid with
    | none => rfl
    | some node =>
      dsimp only
      split
      · exact listIdx_listSet_ne _ hne
      · rfl
  | TRANSFORM_TO_COMPONENT cid field value src =>
    have hne : cid ≠ k := fun he => h (by rw [migrationTargetId, he])
    unfold stepMigration
    dsimp only
    cases hc : listIdx d cid with
    | none => rfl
    | some comp =>
      dsimp only
      split
      · exact listIdx_listSet_ne _ hne
      · rfl
  | MIGRATE_COMPONENT cid cty fields =>
    have hne : cid ≠ k := fun he => h (by rw [migrationTargetId, he])
    unfold stepMigration
    dsimp only
    cases hc : listIdx d cid with
    | none => rfl
    | some comp =>
      dsimp only
      split
      · exact listIdx_listSet_ne _ hne
      · rfl
  | REPLACE_COMPONENT_TYPE a b c e f g => rfl
  | REMOVE_COMPONENT a b c e f => rfl
  | REPLACE_STRING_GLOBAL a b => rfl

/-- A slot untouched by every instruction of a plan is unchanged by the applier. -/
theorem applyMigration_preserves {k : Int} :
    ∀ (instrs : List Instruction) (d : List JVal),
      (∀ ins ∈ instrs, migrationTargetId ins ≠ some k) →
      listIdx (applyMigrationInstructions d instrs) k = listIdx d k := by
  intro instrs
  induction instrs with
  | nil => intro d _; rfl
  | cons g rest ih =>
    intro d hall
    rw [applyMigration_cons, ih _ (fun i hi => hall i (List.mem_cons_of_mem _ hi)),
      stepMigration_other (hall g (List.mem_cons_self _ _))]

/-- Assigning a batch of fields leaves an absent key untouched. -/
theorem getField_foldl_set_not_mem {f : String} :
    ∀ (ftm : List (String × JVal)) (cfs : List (String × JVal)),
      f ∉ ftm.map Prod.fst →
      getField (ftm.foldl (fun c fv => setFieldJS c fv.1 fv.2) (.obj cfs)) f = assocFind cfs f := by
  intro ftm
  induction ftm with
  | nil => intro cfs _; rfl
  | cons kv rest ih =>
    intro cfs hnm
    rw [List.foldl_cons]
    have hk : kv.1 ≠ f := fun he => hnm (by rw [List.map_cons, he]; exact List.mem_cons_self _ _)
    rw [show setFieldJS (JVal.obj cfs) kv.1 kv.2 = .obj (assocSet cfs kv.1 kv.2) from rfl]
    rw [ih _ (fun hm => hnm (List.mem_cons_of_mem _ hm))]
    exact assocFind_assocSet_other _ hk _

/-- After assigning a batch of fields with distinct keys, each assigned key
reads back its value. -/
theorem getField_foldl_set_mem {f : String} {v : JVal} :
    ∀ (ftm : List (String × JVal)), (ftm.map Prod.fst).Nodup → (f, v) ∈ ftm →
      ∀ (cfs : List (String × JVal)),
        getField (ftm.foldl (fun c fv => setFieldJS c fv.1 fv.2) (.obj cfs)) f = some v := by
  intro ftm
  induction ftm with
  | nil => intro _ hm; cases hm
  | cons kv rest ih =>
    intro hnd hm cfs
    rw [List.map_cons, List.nodup_cons] at hnd
    rw [List.foldl_cons]
    rcases List.mem_cons.mp hm with heq | hm'
    · cases heq
      rw [show setFieldJS (JVal.obj cfs) f v = .obj (assocSet cfs f v) from rfl]
      rw [getField_foldl_set_not_mem rest _ hnd.1]
      exact assocFind_assocSet_self _ _ _
    · rw [show setFieldJS (JVal.obj cfs) kv.1 kv.2 = .obj (assocSet cfs kv.1 kv.2) from rfl]
      exact ih hnd.2 hm' _

/-- The generator emits the bundled `MIGRATE_COMPONENT` instruction for every
path-matched node pair whose matched v2 component exists truthily and whose
field collection is non-empty. -/
theorem migrate_instr_mem
    (v3PathMap v2PathMap : List (String × JVal)) (path : String)
    (v3Node v2Node : JVal) (comps : List (String × JVal)) (compType : String)
    (v3Comp v2Comp : JVal)
    (hmem : (path, v3Node) ∈ v3PathMap)
    (hfind : assocFind v2PathMap path = some v2Node)
    (hv2t : v2Node.truthy = true)
    (hcomps : getField v3Node "components" = some (.obj comps))
    (hcmem : (compType, v3Comp) ∈ comps)
    (hv2c : compOf v2Node compType = some v2Comp)
    (hv2ct : v2Comp.truthy = true)
    (hne : migrateFieldsOf v3Comp v2Comp compType ≠ []) :
    Instruction.MIGRATE_COMPONENT (getIntField v2Comp "__compId__") compType
      (migrateFieldsOf v3Comp v2Comp compType) ∈
      generateMigrationInstructions v3PathMap v2PathMap := by
  rw [generateMigrationInstructions]
  apply mem_foldl_of_mem_step _ ?hmono v3PathMap (path, v3Node) hmem _ ?hstep
  case hmono =>
    intro acc pv a ha
    dsimp only
    split
    · split
      · exact List.mem_append_left _ ha
      · exact ha
    · exact ha
  case hstep =>
    intro acc
    dsimp only
    rw [hfind]
    dsimp only
    rw [if_pos hv2t]
    apply List.mem_append_right
    rw [genForNode, hcomps]
    apply mem_foldl_of_mem_step _ ?m2 comps (compType, v3Comp) hcmem _ ?s2
    case m2 =>
      intro acc2 kv a ha
      exact List.mem_append_left _ ha
    case s2 =>
      intro acc2
      apply List.mem_append_right
      rw [genForComponent]
      apply List.mem_append_right
      rw [hv2c]
      dsimp only
      rw [if_pos hv2ct, if_pos hne]
      exact List.mem_singleton.mpr rfl

/-- The applier over a concatenation runs the two plans in sequence. -/
theorem applyMigration_append (d : List JVal) (l1 l2 : List Instruction) :
    applyMigrationInstructions d (l1 ++ l2) =
      applyMigrationInstructions (applyMigrationInstructions d l1) l2 := by
  simp only [applyMigrationInstructions, List.foldl_append]

/-- Running a plan whose only instruction targeting slot `cid` is one
`MIGRATE_COMPONENT` leaves that slot holding the old object with the bundled
fields assigned. -/
theorem applyMigration_migrate (data : List JVal) (pre post : List Instruction)
    (cid : Int) (cty : String) (ftm : List (String × JVal)) (cfs : List (String × JVal))
    (hslot : listIdx data cid = some (.obj cfs))
    (hpre : ∀ ins ∈ pre, migrationTargetId ins ≠ some cid)
    (hpost : ∀ ins ∈ post, migrationTargetId ins ≠ some cid) :
    listIdx (applyMigrationInstructions data
        (pre ++ Instruction.MIGRATE_COMPONENT cid cty ftm :: post)) cid =
      some (ftm.foldl (fun c fv => setFieldJS c fv.1 fv.2) (.obj cfs)) := by
  rw [applyMigration_append]
  have hslot1 : listIdx (applyMigrationInstructions data pre) cid = some (.obj cfs) := by
    rw [applyMigration_preserves pre data hpre]
    exact hslot
  rw [applyMigration_cons]
  rw [applyMigration_preserves post _ hpost]
  have hrange := listIdx_some_range hslot1
  unfold stepMigration
  dsimp only
  rw [hslot1]
  dsimp only
  rw [if_pos (show JVal.truthy (.obj cfs) = true from rfl)]
  exact listIdx_listSet_self _ hrange

/-- C3 (amended): for a node at the same path in both trees and a component
kind on both matched nodes, every field present by name on both components
migrates with the source's value provided it is also non-`null`, in addition
to the claim's own exceptions (reserved names, cross-reference values, a
per-kind whitelist): the field enters `migrateFieldsOf`, the generator emits
the bundled `MIGRATE_COMPONENT` instruction, and applying a plan in which no
other instruction writes the target slot leaves the field on the target with
the source's value.  A `null` source value is skipped by the collection
loop's first guard, which the claim does not except — see the
counterexample. -/
theorem c3_migration_amended
    (v3PathMap v2PathMap : List (String × JVal)) (path : String)
    (v3Node v2Node : JVal) (comps : List (String × JVal)) (compType : String)
    (v3Comp v2Comp : JVal) (fs : List (String × JVal)) (f : String) (srcV : JVal)
    (hmem : (path, v3Node) ∈ v3PathMap)
    (hfind : assocFind v2PathMap path = some v2Node)
    (hv2t : v2Node.truthy = true)
    (hcomps : getField v3Node "components" = some (.obj comps))
    (hcmem : (compType, v3Comp) ∈ comps)
    (hv2c : compOf v2Node compType = some v2Comp)
    (hv2ct : v2Comp.truthy = true)
    (hfs : v3Comp = .obj fs)
    (hnd : (fs.map Prod.fst).Nodup)
    (hf : assocFind fs f = some srcV)
    (hnn : srcV ≠ .null)
    (hex : (getField v2Comp f).isSome = true)
    (hncr : (truthyO (getField srcV "__type__") && truthyO (getField srcV "__ref__")) = false)
    (hsm : shouldMigrateField FIELD_WHITELIST compType f = true) :
    (f, srcV) ∈ migrateFieldsOf v3Comp v2Comp compType ∧
    ((migrateFieldsOf v3Comp v2Comp compType).map Prod.fst).Nodup ∧
    Instruction.MIGRATE_COMPONENT (getIntField v2Comp "__compId__") compType
      (migrateFieldsOf v3Comp v2Comp compType) ∈
      generateMigrationInstructions v3PathMap v2PathMap ∧
    (∀ (data : List JVal) (pre post : List Instruction) (cid : Int)
        (ftm : List (String × JVal)) (cfs : List (String × JVal)),
      (f, srcV) ∈ ftm → (ftm.map Prod.fst).Nodup →
      listIdx data cid = some (.obj cfs) →
      (∀ ins ∈ pre, migrationTargetId ins ≠ some cid) →
      (∀ ins ∈ post, migrationTargetId ins ≠ some cid) →
      getField ((listIdx (applyMigrationInstructions data
          (pre ++ Instruction.MIGRATE_COMPONENT cid compType ftm :: post)) cid).getD .null) f
        = some srcV) := by
  have hmemf : (f, srcV) ∈ fs := assocFind_mem hf
  have hpred : migrateFieldPred v2Comp compType (f, srcV) = true := by
    simp [migrateFieldPred, hex, hsm, hncr, hnn]
  have h1 : (f, srcV) ∈ migrateFieldsOf v3Comp v2Comp compType := by
    rw [hfs, migrateFieldsOf_eq_filter]
    exact List.mem_filter.mpr ⟨hmemf, hpred⟩
  have h2 : ((migrateFieldsOf v3Comp v2Comp compType).map Prod.fst).Nodup := by
    rw [hfs, migrateFieldsOf_eq_filter]
    exact List.Nodup.sublist (List.Sublist.map Prod.fst (List.filter_sublist fs)) hnd
  refine ⟨h1, h2, ?_, ?_⟩
  · exact migrate_instr_mem v3PathMap v2PathMap path v3Node v2Node comps compType v3Comp
      v2Comp hmem hfind hv2t hcomps hcmem hv2c hv2ct (List.ne_nil_of_mem h1)
  · intro data pre post cid ftm cfs hftm hndf hslot hpre hpost
    rw [applyMigration_migrate data pre post cid compType ftm cfs hslot hpre hpost]
    exact getField_foldl_set_mem ftm hndf hftm cfs

/-- Migration witness graphs: source and target both hold a `cc.Custom`
component with a `_x` field (source value 42, target value 5). -/
def exC3v3data : List JVal :=
  [.obj [("__type__", .str "cc.Node"), ("_name", .str "R"),
     ("_components", .arr [.obj [("__id__", .num 1)]])],
   .obj [("__type__", .str "cc.Custom"), ("_x", .num 42)]]

def exC3v2data : List JVal :=
  [.obj [("__type__", .str "cc.Node"), ("_name", .str "R"),
     ("_components", .arr [.obj [("__id__", .num 1)]])],
   .obj [("__type__", .str "cc.Custom"), ("_x", .num 5)]]

def exC3v3tree : JVal := (parsePrefab (.arr exC3v3data)).getD .null
def exC3v2tree : JVal := (parsePrefab (.arr exC3v2data)).getD .null
def exC3v3node : JVal := (assocFind (buildPathMap exC3v3tree) "R").getD .null
def exC3v2node : JVal := (assocFind (buildPathMap exC3v2tree) "R").getD .null
def exC3v3comp : JVal := (compOf exC3v3node "Custom").getD .null
def exC3v2comp : JVal := (compOf exC3v2node "Custom").getD .null

/-- Migration counterexample source graph: the `cc.Custom` component's `_x`
field is `null`. -/
def exC3cv3data : List JVal :=
  [.obj [("__type__", .str "cc.Node"), ("_name", .str "R"),
     ("_components", .arr [.obj [("__id__", .num 1)]])],
   .obj [("__type__", .str "cc.Custom"), ("_x", .null)]]

def exC3cv3tree : JVal := (parsePrefab (.arr exC3cv3data)).getD .null

/-- The parsed source component of the counterexample (its `_x` is `null`). -/
def exC3cv3comp : JVal :=
  (compOf ((assocFind (buildPathMap exC3cv3tree) "R").getD .null) "Custom").getD .null

/-- C3 (counterexample): with `_x: null` on the source component and `_x: 5`
on the target — a field present by name on both, not reserved, not a
cross-reference, not whitelisted out — the generator emits no instruction at
all and the applied result keeps the target's value 5 instead of the
source's `null`. -/
theorem c3_migration_counterexample :
    parsePrefab (.arr exC3cv3data) = some exC3cv3tree ∧
    parsePrefab (.arr exC3v2data) = some exC3v2tree ∧
    getField exC3cv3comp "_x" = some .null ∧
    getField exC3v2comp "_x" = some (.num 5) ∧
    shouldMigrateField FIELD_WHITELIST "Custom" "_x" = true ∧
    (truthyO (getField JVal.null "__type__") && truthyO (getField JVal.null "__ref__")) = false ∧
    generateMigrationInstructions (buildPathMap exC3cv3tree) (buildPathMap exC3v2tree) = [] ∧
    applyMigrationInstructions exC3v2data
      (generateMigrationInstructions (buildPathMap exC3cv3tree) (buildPathMap exC3v2tree)) =
      exC3v2data ∧
    getField ((listIdx exC3v2data 1).getD .null) "_x" = some (.num 5) ∧
    JVal.num 5 ≠ JVal.null := by
  refine ⟨rfl, rfl, by decide, by decide, by decide, by decide, by decide, by decide,
    by decide, by decide⟩

/-- Witness for C3 (amended) on the concrete `_x: 42` scenario. -/
theorem c3_migration_witness :
    ("_x", JVal.num 42) ∈ migrateFieldsOf exC3v3comp exC3v2comp "Custom" ∧
    ((migrateFieldsOf exC3v3comp exC3v2comp "Custom").map Prod.fst).Nodup ∧
    Instruction.MIGRATE_COMPONENT (getIntField exC3v2comp "__compId__") "Custom"
      (migrateFieldsOf exC3v3comp exC3v2comp "Custom") ∈
      generateMigrationInstructions (buildPathMap exC3v3tree) (buildPathMap exC3v2tree) ∧
    getField ((listIdx (applyMigrationInstructions exC3v2data
        ([] ++ Instruction.MIGRATE_COMPONENT 1 "Custom"
          (migrateFieldsOf exC3v3comp exC3v2comp "Custom") :: [])) 1).getD .null) "_x"
      = some (.num 42) := by
  have h := c3_migration_amended (buildPathMap exC3v3tree) (buildPathMap exC3v2tree) "R"
    exC3v3node exC3v2node [("Custom", exC3v3comp)] "Custom" exC3v3comp exC3v2comp
    [("_x", JVal.num 42), ("__compId__", JVal.num 1)] "_x" (JVal.num 42)
    (by decide) (by decide) (by decide) (by decide) (by decide) (by decide) (by decide)
    (by decide) (by decide) (by decide) (by decide) (by decide) (by decide) (by decide)
  refine ⟨h.1, h.2.1, h.2.2.1, ?_⟩
  exact h.2.2.2 exC3v2data [] [] 1 (migrateFieldsOf exC3v3comp exC3v2comp "Custom")
    [("__type__", .str "cc.Custom"), ("_x", .num 5)] h.1 h.2.1 (by decide)
    (by intro ins hins; cases hins) (by intro ins hins; cases hins)

/-- Pipeline-order scenario, source graph: node `R` carries a `UIOpacity`
(`_opacity: 128`) and a `UITransform` (anchor point and content size) — the
two kinds that are both transform-ruled to `Node` and in the removal list. -/
def exC8v3data : List JVal :=
  [.obj [("__type__", .str "cc.Node"), ("_name", .str "R"),
     ("_components", .arr [.obj [("__id__", .num 1)], .obj [("__id__", .num 2)]])],
   .obj [("__type__", .str "cc.UIOpacity"), ("_opacity", .num 128)],
   .obj [("__type__", .str "cc.UITransform"),
     ("_anchorPoint", .obj [("x", .num 1), ("y", .num 2)]),
     ("_contentSize", .obj [("width", .num 100), ("height", .num 50)])]]

/-- Pipeline-order scenario, target graph: same shape, different field values. -/
def exC8v2data : List JVal :=
  [.obj [("__type__", .str "cc.Node"), ("_name", .str "R"),
     ("_components", .arr [.obj [("__id__", .num 1)], .obj [("__id__", .num 2)]])],
   .obj [("__type__", .str "cc.UIOpacity"), ("_opacity", .num 255)],
   .obj [("__type__", .str "cc.UITransform"),
     ("_anchorPoint", .obj [("x", .num 0), ("y", .num 0)]),
     ("_contentSize", .obj [("width", .num 10), ("height", .num 10)])]]

/-- Full-pipeline output on the scenario: the node carries the source's
`_opacity`, `_anchorPoint` and `_contentSize`, and both component records
are gone. -/
def exC8result : List JVal :=
  [.obj [("__type__", .str "cc.Node"), ("_name", .str "R"), ("_components", .arr []),
     ("_opacity", .num 128),
     ("_anchorPoint", .obj [("x", .num 1), ("y", .num 2)]),
     ("_contentSize", .obj [("width", .num 100), ("height", .num 50)])]]

/-- C8: `migratePrefab` applies transform/copy instructions before removal
instructions — the result decomposes as migration application, then script
replacement, then removal generation *on the transformed array* and its
application, then global string substitution.  Both component kinds that are
transform-ruled to `Node` and also in the removal list (`UIOpacity`,
`UITransform`) are exercised in a concrete scenario: the mapped source
values reach the matched target node and survive into the final output,
while no record of either removed kind remains. -/
theorem c8_transform_before_removal (v3Prefab v2Prefab : JVal) (mapping : List (String × String))
    (v2l : List JVal) (t3 t2 : JVal)
    (h3 : parsePrefab v3Prefab = some t3)
    (h2 : parsePrefab v2Prefab = some t2)
    (harr : v2Prefab = .arr v2l) :
    migratePrefab v3Prefab v2Prefab mapping =
      some (applyStringReplaceInstructions
        (applyRemovalInstructions
          (applyScriptReplacementInstructions
            (applyMigrationInstructions v2l
              (generateMigrationInstructions (buildPathMap t3) (buildPathMap t2)))
            (generateScriptReplacementInstructions (buildPathMap t3) (buildPathMap t2)))
          (generateRemovalInstructions (buildPathMap t2)
            (applyScriptReplacementInstructions
              (applyMigrationInstructions v2l
                (generateMigrationInstructions (buildPathMap t3) (buildPathMap t2)))
              (generateScriptReplacementInstructions (buildPathMap t3) (buildPathMap t2)))))
        (generateGlobalStringReplaceInstructions mapping)) ∧
    (∃ rules, assocFind COMPONENT_TRANSFORM_RULES "UIOpacity" = some rules ∧
      ∃ r ∈ rules, r.target = "Node") ∧
    COMPONENTS_TO_REMOVE.contains "UIOpacity" = true ∧
    (∃ rules, assocFind COMPONENT_TRANSFORM_RULES "UITransform" = some rules ∧
      ∃ r ∈ rules, r.target = "Node") ∧
    COMPONENTS_TO_REMOVE.contains "UITransform" = true ∧
    migratePrefab (.arr exC8v3data) (.arr exC8v2data) [] = some exC8result ∧
    getField ((listIdx exC8v3data 1).getD .null) "_opacity" = some (.num 128) ∧
    getField (exC8result.getD 0 .null) "_opacity" = some (.num 128) ∧
    getField (exC8result.getD 0 .null) "_anchorPoint" =
      some (.obj [("x", .num 1), ("y", .num 2)]) ∧
    (exC8result.all fun r =>
      !(getField r "__type__" == some (.str "cc.UIOpacity")) &&
      !(getField r "__type__" == some (.str "cc.UITransform"))) = true := by
  refine ⟨?_, ⟨_, rfl, ⟨"Node", [("_opacity", .one "_opacity")]⟩, by decide, rfl⟩, rfl,
    ⟨_, rfl, ⟨"Node", [("_anchorPoint", .one "_anchorPoint"),
      ("_contentSize", .one "_contentSize")]⟩, by decide, rfl⟩, rfl,
    by decide, by decide, by decide, by decide, by decide⟩
  subst harr
  simp only [migratePrefab, h3, h2]

/-- The parsed source tree of the pipeline-order scenario. -/
def exC8v3tree : JVal := (parsePrefab (.arr exC8v3data)).getD .null
/-- The parsed target tree of the pipeline-order scenario. -/
def exC8v2tree : JVal := (parsePrefab (.arr exC8v2data)).getD .null

/-- Witness for C8 on the concrete scenario graphs. -/
theorem c8_transform_before_removal_witness :
    migratePrefab (.arr exC8v3data) (.arr exC8v2data) [] =
      some (applyStringReplaceInstructions
        (applyRemovalInstructions
          (applyScriptReplacementInstructions
            (applyMigrationInstructions exC8v2data
              (generateMigrationInstructions (buildPathMap exC8v3tree)
                (buildPathMap exC8v2tree)))
            (generateScriptReplacementInstructions (buildPathMap exC8v3tree)
              (buildPathMap exC8v2tree)))
          (generateRemovalInstructions (buildPathMap exC8v2tree)
            (applyScriptReplacementInstructions
              (applyMigrationInstructions exC8v2data
                (generateMigrationInstructions (buildPathMap exC8v3tree)
                  (buildPathMap exC8v2tree)))
              (generateScriptReplacementInstructions (buildPathMap exC8v3tree)
                (buildPathMap exC8v2tree)))))
        (generateGlobalStringReplaceInstructions [])) :=
  (c8_transform_before_removal (.arr exC8v3data) (.arr exC8v2data) [] exC8v2data exC8v3tree exC8v2tree
    (by decide) (by decide) rfl).1
